import Mathlib

/-!
Verification of the Raft consensus core (first-principles-cs/consensus).

This file gives a shallow embedding, in Lean 4, of the parts of the C
source that the checked claims are about: the in-memory log (log.c), the
node state and apply loop (raft.c), commit-index advancement (commit.c),
the election and dispatch logic (election.c), the follower-side
replication handler (replication.c), batch proposal (batch.c), the
ReadIndex pending list (read.c), snapshot installation (snapshot.c), the
CRC32 checksum (crc32.c) and the state-file persistence layer
(storage.c).

Machine integers are modelled as Nat (uint64/uint32/size_t) and Int
(int32 voted_for, node ids in messages); bytes are Nat values below 256.
Side effects (the send/apply/save callbacks) are modelled as explicit
event traces.  Allocation and I/O failures, where a claim depends on
them, are modelled by explicit oracles; elsewhere allocation is assumed
to succeed.  The random election timeout produced by
raft_random_election_timeout is passed in as an explicit parameter ft.
-/

set_option maxRecDepth 100000

namespace Raft

/-- Status codes, types.h raft_status_t. -/
inductive Status where
  | ok
  | notLeader
  | notFound
  | ioError
  | invalidArg
  | noMemory
  | corruption
  | stopped
deriving DecidableEq, Repr

/-- Node roles, types.h raft_role_t. -/
inductive Role where
  | follower
  | candidate
  | leader
  | preCandidate
deriving DecidableEq, Repr

/-- A log entry, types.h raft_entry_t.  etype is the raft_entry_type_t
tag (0 = COMMAND, 1 = CONFIG, 2 = NOOP); command is the payload bytes. -/
structure Entry where
  term : Nat
  index : Nat
  etype : Nat
  command : List Nat
deriving DecidableEq, Repr

/-- The in-memory log, log.h raft_log_t.  entries holds the live
records (count = entries.length); capacity handling is elided since
growth is observationally transparent. -/
structure Log where
  entries : List Entry
  base_index : Nat
  base_term : Nat
deriving DecidableEq, Repr

/-- log.c raft_log_last_index: base_index + count (the count = 0 branch
returns base_index, which is the same value). -/
def raft_log_last_index (log : Log) : Nat :=
  log.base_index + log.entries.length

/-- log.c raft_log_last_term. -/
def raft_log_last_term (log : Log) : Nat :=
  match log.entries.getLast? with
  | some e => e.term
  | none => log.base_term

/-- log.c raft_log_append (the success path; allocation failure is an
environment event, injected by an oracle where a claim needs it).
Returns the updated log and the index of the new entry. -/
def raft_log_append (log : Log) (term : Nat) (command : List Nat) : Log × Nat :=
  let idx := log.base_index + log.entries.length + 1
  ({ log with entries := log.entries ++ [⟨term, idx, 0, command⟩] }, idx)

/-- log.c raft_log_get. -/
def raft_log_get (log : Log) (index : Nat) : Option Entry :=
  if index = 0 then none
  else if index ≤ log.base_index then none
  else log.entries.get? (index - log.base_index - 1)

/-- log.c raft_log_truncate_after. -/
def raft_log_truncate_after (log : Log) (after : Nat) : Log :=
  if raft_log_last_index log ≤ after then log
  else if after ≤ log.base_index then { log with entries := [] }
  else { log with entries := log.entries.take (after - log.base_index) }

/-- log.c raft_log_term_at. -/
def raft_log_term_at (log : Log) (index : Nat) : Nat :=
  if index = 0 then 0
  else if index = log.base_index then log.base_term
  else
    match raft_log_get log index with
    | some e => e.term
    | none => 0

/-- RPC request, rpc.h raft_request_vote_t (minus the type tag, which
lives in Msg). -/
structure RequestVoteMsg where
  term : Nat
  candidate_id : Int
  last_log_index : Nat
  last_log_term : Nat
deriving DecidableEq, Repr

/-- rpc.h raft_request_vote_response_t. -/
structure RequestVoteRespMsg where
  term : Nat
  vote_granted : Bool
deriving DecidableEq, Repr

/-- rpc.h raft_append_entries_t; the serialized entry stream that
follows the header on the wire is modelled as the structured list
entries of (term, command) pairs, with entries_count = entries.length. -/
structure AppendEntriesMsg where
  term : Nat
  leader_id : Int
  prev_log_index : Nat
  prev_log_term : Nat
  leader_commit : Nat
  entries : List (Nat × List Nat)
deriving DecidableEq, Repr

/-- rpc.h raft_append_entries_response_t. -/
structure AppendEntriesRespMsg where
  term : Nat
  success : Bool
  match_index : Nat
deriving DecidableEq, Repr

/-- rpc.h raft_pre_vote_t. -/
structure PreVoteMsg where
  term : Nat
  candidate_id : Int
  last_log_index : Nat
  last_log_term : Nat
deriving DecidableEq, Repr

/-- A delivered wire message.  Each constructor corresponds to one
raft_msg_type_t tag; unknownTag stands for a message whose leading tag
is none of the nine defined constants. -/
inductive Msg where
  | requestVote (m : RequestVoteMsg)
  | requestVoteResponse (m : RequestVoteRespMsg)
  | appendEntries (m : AppendEntriesMsg)
  | appendEntriesResponse (m : AppendEntriesRespMsg)
  | installSnapshot (term : Nat) (leader_id : Int) (last_index last_term : Nat) (data : List Nat)
  | installSnapshotResponse (term : Nat) (success : Bool)
  | preVote (m : PreVoteMsg)
  | preVoteResponse (term : Nat) (vote_granted : Bool)
  | timeoutNow (term : Nat) (leader_id : Int)
  | unknownTag (tag : Nat)
deriving DecidableEq, Repr

/-- The leading wire tag of a message, rpc.h raft_msg_type_t values. -/
def msgTag : Msg → Nat
  | .requestVote _ => 1
  | .requestVoteResponse _ => 2
  | .appendEntries _ => 3
  | .appendEntriesResponse _ => 4
  | .installSnapshot _ _ _ _ _ => 5
  | .installSnapshotResponse _ _ => 6
  | .preVote _ => 7
  | .preVoteResponse _ _ => 8
  | .timeoutNow _ _ => 9
  | .unknownTag t => t

/-- The raft_node_t state, raft.h.  Pointer-valued callbacks are
modelled by has_*_fn flags (NULL = false); storage presence by
has_storage; the persistent and volatile sub-structs are inlined. -/
structure Node where
  node_id : Nat
  num_nodes : Nat
  role : Role
  current_term : Nat
  voted_for : Int
  commit_index : Nat
  last_applied : Nat
  next_index : List Nat
  match_index : List Nat
  log : Log
  running : Bool
  current_leader : Int
  votes_received : Nat
  votes_granted : List Bool
  election_timeout_ms : Nat
  election_timer_ms : Nat
  heartbeat_timer_ms : Nat
  has_send_fn : Bool
  has_apply_fn : Bool
  has_storage : Bool
deriving DecidableEq, Repr

/-- Externally visible effects of an operation, in order of occurrence:
calls to the send callback, the apply callback, the read-completion
callbacks (ctx stands for the opaque user context pointer), and
raft_storage_save_state invocations. -/
inductive Event where
  | send (peer : Int) (msg : Msg)
  | applyEntry (e : Entry)
  | readCallback (ctx : Nat) (status : Status)
  | saveState (term : Nat) (voted_for : Int)
deriving DecidableEq, Repr

/-- timer.c raft_reset_election_timer; ft is the fresh random timeout
drawn by raft_random_election_timeout. -/
def raft_reset_election_timer (n : Node) (ft : Nat) : Node :=
  { n with election_timer_ms := 0, election_timeout_ms := ft }

/-- election.c raft_step_down. -/
def raft_step_down (n : Node) (new_term : Nat) (ft : Nat) : Node :=
  raft_reset_election_timer
    { n with role := .follower,
             current_term := new_term,
             voted_for := -1,
             current_leader := -1,
             votes_received := 0,
             votes_granted := List.replicate n.num_nodes false } ft

/-- The while-loop body of raft.c raft_apply_committed, iterated k
times: bump last_applied, fetch the entry, apply it when present. -/
def applyLoop : Node → Nat → Node × List Event
  | n, 0 => (n, [])
  | n, k+1 =>
    let la := n.last_applied + 1
    let n' := { n with last_applied := la }
    let evs :=
      match raft_log_get n'.log la with
      | some e => [Event.applyEntry e]
      | none => []
    let (n'', rest) := applyLoop n' k
    (n'', evs ++ rest)

/-- raft.c raft_apply_committed: with an apply callback configured, the
loop runs while last_applied < commit_index, i.e. exactly
commit_index - last_applied times. -/
def raft_apply_committed (n : Node) : Node × List Event :=
  if n.has_apply_fn then applyLoop n (n.commit_index - n.last_applied)
  else (n, [])

/-- The inner counting loop of commit.c raft_advance_commit_index:
the leader counts itself (count starts at 1) plus every other member i
with match_index[i] >= N. -/
def matchCount (n : Node) (N : Nat) : Nat :=
  1 + (List.range n.num_nodes).countP
        (fun i => decide (i ≠ n.node_id ∧ N ≤ n.match_index.getD i 0))

/-- The committability test inside the scan loop of commit.c
raft_advance_commit_index: a strict majority has replicated N
(count > num_nodes / 2) and the entry at N carries the leader's
current term. -/
def commitOkAt (n : Node) (N : Nat) : Prop :=
  n.num_nodes / 2 < matchCount n N ∧ raft_log_term_at n.log N = n.current_term

instance (n : Node) (N : Nat) : Decidable (commitOkAt n N) := by
  unfold commitOkAt
  infer_instance

/-- The same majority condition phrased as the claim states it: of the
num_nodes members, counting the leader's own last_index() for itself,
more than num_nodes / 2 have match_index >= N. -/
def majorityAt (n : Node) (N : Nat) : Prop :=
  n.num_nodes / 2 <
    (List.range n.num_nodes).countP
      (fun i => decide (N ≤ (if i = n.node_id then raft_log_last_index n.log
                             else n.match_index.getD i 0)))

/-- commit.c raft_advance_commit_index.  The for-loop over
N = commit_index+1 .. last_index keeps the last N that both reaches a
majority and has term_at(N) == current_term; on advancement
raft_apply_committed runs. -/
def raft_advance_commit_index (n : Node) : Node × List Event × Status :=
  if n.role ≠ .leader then (n, [], .notLeader)
  else
    let new_commit :=
      (List.range' (n.commit_index + 1)
        (raft_log_last_index n.log - n.commit_index)).foldl
        (fun acc N => if commitOkAt n N then N else acc)
        n.commit_index
    if n.commit_index < new_commit then
      let r := raft_apply_committed { n with commit_index := new_commit }
      (r.1, r.2, .ok)
    else (n, [], .ok)

/-- raft.c raft_become_leader (allocation assumed to succeed). -/
def raft_become_leader (n : Node) : Node × Status :=
  let last := raft_log_last_index n.log
  let n := { n with role := .leader,
                    current_leader := Int.ofNat n.node_id,
                    next_index := List.replicate n.num_nodes (last + 1),
                    match_index := List.replicate n.num_nodes 0 }
  let n := if n.num_nodes = 1 then { n with commit_index := last } else n
  (n, .ok)

/-- raft.c raft_propose.  Returns the updated node, the status, and the
index assigned to the entry (the *out_index result). -/
def raft_propose (n : Node) (command : List Nat) : Node × Status × Option Nat :=
  if !n.running then (n, .stopped, none)
  else if n.role ≠ .leader then (n, .notLeader, none)
  else
    let (log', idx) := raft_log_append n.log n.current_term command
    let n := { n with log := log' }
    let n := if n.num_nodes = 1 then { n with commit_index := idx } else n
    (n, .ok, some idx)

/-- election.c is_log_up_to_date. -/
def is_log_up_to_date (n : Node) (last_log_term last_log_index : Nat) : Bool :=
  let my_last_term := raft_log_last_term n.log
  let my_last_index := raft_log_last_index n.log
  if my_last_term < last_log_term then true
  else if last_log_term = my_last_term ∧ my_last_index ≤ last_log_index then true
  else false

/-- election.c raft_start_election.  Produces the event trace of the
call: the RequestVote messages handed to the send callback.  The C
function performs no raft_storage_save_state call, so no
Event.saveState can ever appear in the trace. -/
def raft_start_election (n : Node) (ft : Nat) : Node × List Event × Status :=
  if !n.running then (n, [], .stopped)
  else
    let n := { n with role := .candidate,
                      current_term := n.current_term + 1,
                      voted_for := Int.ofNat n.node_id,
                      current_leader := -1,
                      votes_received := 1,
                      votes_granted :=
                        (List.replicate n.num_nodes false).set n.node_id true }
    let n := raft_reset_election_timer n ft
    if n.num_nodes / 2 < n.votes_received then
      let (n', st) := raft_become_leader n
      (n', [], st)
    else if n.has_send_fn then
      let req : RequestVoteMsg :=
        { term := n.current_term,
          candidate_id := Int.ofNat n.node_id,
          last_log_index := raft_log_last_index n.log,
          last_log_term := raft_log_last_term n.log }
      let evs := (List.range n.num_nodes).filterMap
        (fun i => if i ≠ n.node_id then
                    some (Event.send (Int.ofNat i) (.requestVote req))
                  else none)
      (n, evs, .ok)
    else (n, [], .ok)

/-- election.c raft_handle_request_vote. -/
def raft_handle_request_vote (n : Node) (req : RequestVoteMsg) (ft : Nat) :
    Node × RequestVoteRespMsg :=
  let resp : RequestVoteRespMsg := { term := n.current_term, vote_granted := false }
  let (n, resp) :=
    if n.current_term < req.term then
      let n' := raft_step_down n req.term ft
      (n', { resp with term := n'.current_term })
    else (n, resp)
  if req.term < n.current_term then (n, resp)
  else
    let can_vote := n.voted_for = -1 ∨ n.voted_for = req.candidate_id
    let log_ok := is_log_up_to_date n req.last_log_term req.last_log_index
    if can_vote ∧ log_ok = true then
      (raft_reset_election_timer { n with voted_for := req.candidate_id } ft,
       { resp with vote_granted := true })
    else (n, resp)

/-- election.c raft_handle_request_vote_response. -/
def raft_handle_request_vote_response (n : Node) (from_node : Int)
    (resp : RequestVoteRespMsg) (ft : Nat) : Node × Status :=
  if from_node < 0 ∨ (n.num_nodes : Int) ≤ from_node then (n, .invalidArg)
  else if n.role ≠ .candidate then (n, .ok)
  else if n.current_term < resp.term then (raft_step_down n resp.term ft, .ok)
  else if resp.term < n.current_term then (n, .ok)
  else if resp.vote_granted ∧ ¬(n.votes_granted.getD from_node.toNat false) then
    let n := { n with votes_granted := n.votes_granted.set from_node.toNat true,
                      votes_received := n.votes_received + 1 }
    if n.num_nodes / 2 < n.votes_received then raft_become_leader n
    else (n, .ok)
  else (n, .ok)

/-- election.c raft_handle_append_entries (the handler wired into
raft_receive_message).  Only the entries_count == 0 heartbeat branch
touches commit_index, and it never calls raft_apply_committed. -/
def raft_handle_append_entries (n : Node) (req : AppendEntriesMsg) (ft : Nat) :
    Node × AppendEntriesRespMsg :=
  let resp : AppendEntriesRespMsg :=
    { term := n.current_term, success := false, match_index := 0 }
  let (n, resp) :=
    if n.current_term < req.term then
      let n' := raft_step_down n req.term ft
      (n', { resp with term := n'.current_term })
    else (n, resp)
  if req.term < n.current_term then (n, resp)
  else
    let n := raft_reset_election_timer n ft
    let n := { n with current_leader := req.leader_id }
    let n := if n.role = .candidate then
               { n with role := .follower, votes_received := 0 }
             else n
    if req.entries.length = 0 then
      let resp := { resp with success := true,
                              match_index := raft_log_last_index n.log }
      let n :=
        if n.commit_index < req.leader_commit then
          let last := raft_log_last_index n.log
          { n with commit_index :=
              if req.leader_commit < last then req.leader_commit else last }
        else n
      (n, resp)
    else (n, resp)

/-- The per-entry body of the loop in replication.c
raft_handle_append_entries_with_log: on a term conflict truncate from
the conflicting index, then append entries not already present. -/
def appendEntriesLoop (n : Node) (prev : Nat) : List (Nat × List Nat) → Nat → Node
  | [], _ => n
  | (eterm, cmd) :: rest, i =>
    let entry_index := prev + 1 + i
    let existing := raft_log_term_at n.log entry_index
    let n :=
      if existing ≠ 0 ∧ existing ≠ eterm then
        { n with log := raft_log_truncate_after n.log (entry_index - 1) }
      else n
    let n :=
      if raft_log_last_index n.log < entry_index then
        { n with log := (raft_log_append n.log eterm cmd).1 }
      else n
    appendEntriesLoop n prev rest (i + 1)

/-- replication.c raft_handle_append_entries_with_log. -/
def raft_handle_append_entries_with_log (n : Node) (req : AppendEntriesMsg)
    (ft : Nat) : Node × AppendEntriesRespMsg × List Event :=
  let resp : AppendEntriesRespMsg :=
    { term := n.current_term, success := false, match_index := 0 }
  let (n, resp) :=
    if n.current_term < req.term then
      let n' := raft_step_down n req.term ft
      (n', { resp with term := n'.current_term })
    else (n, resp)
  if req.term < n.current_term then (n, resp, [])
  else
    let n := { n with election_timer_ms := 0, current_leader := req.leader_id }
    let n := if n.role = .candidate then
               { n with role := .follower, votes_received := 0 }
             else n
    if req.prev_log_index ≠ 0 ∧
       (raft_log_term_at n.log req.prev_log_index = 0 ∨
        raft_log_term_at n.log req.prev_log_index ≠ req.prev_log_term) then
      (n, { resp with match_index := raft_log_last_index n.log }, [])
    else
      let n := appendEntriesLoop n req.prev_log_index req.entries 0
      let (n, evs) :=
        if n.commit_index < req.leader_commit then
          let last_new := req.prev_log_index + req.entries.length
          let last_log := raft_log_last_index n.log
          let c := req.leader_commit
          let c := if last_new < c then last_new else c
          let c := if last_log < c then last_log else c
          raft_apply_committed { n with commit_index := c }
        else (n, [])
      (n, { resp with success := true,
                      match_index := raft_log_last_index n.log }, evs)

/-- election.c raft_receive_message: the RPC dispatcher.  Length checks
on the raw buffer are elided (messages arrive structured); the switch
dispatches on the leading tag, every tag outside 1..4 falls to the
default branch returning INVALID_ARG. -/
def raft_receive_message (n : Node) (from_node : Int) (m : Msg) (ft : Nat) :
    Node × List Event × Status :=
  match m with
  | .requestVote rv =>
    let (n', resp) := raft_handle_request_vote n rv ft
    let evs := if n'.has_send_fn then
                 [Event.send from_node (.requestVoteResponse resp)]
               else []
    (n', evs, .ok)
  | .requestVoteResponse r =>
    let (n', st) := raft_handle_request_vote_response n from_node r ft
    (n', [], st)
  | .appendEntries ae =>
    let (n', resp) := raft_handle_append_entries n ae ft
    let evs := if n'.has_send_fn then
                 [Event.send from_node (.appendEntriesResponse resp)]
               else []
    (n', evs, .ok)
  | .appendEntriesResponse _ => (n, [], .ok)
  | _ => (n, [], .invalidArg)

/-- The loop of batch.c raft_propose_batch, acting on the log (the only
node component the loop mutates).  appendOk i / persistOk i are oracles
for the outcome of the i-th raft_log_append allocation and the i-th
raft_storage_append_entry write; first is the C first_index local
(0 until the first entry is appended). -/
def batchLoop (term : Nat) (hasStorage : Bool) (appendOk persistOk : Nat → Bool) :
    List (List Nat) → Log → Nat → Nat → Log × Status × Nat
  | [], log, _, first => (log, .ok, first)
  | c :: rest, log, i, first =>
    if appendOk i then
      let (log', idx) := raft_log_append log term c
      let first' := if i = 0 then idx else first
      if hasStorage then
        if persistOk i then batchLoop term hasStorage appendOk persistOk rest log' (i + 1) first'
        else (raft_log_truncate_after log' (first' - 1), .ioError, first')
      else batchLoop term hasStorage appendOk persistOk rest log' (i + 1) first'
    else
      ((if 0 < first then raft_log_truncate_after log (first - 1) else log),
       .noMemory, first)

/-- batch.c raft_propose_batch.  Returns the node, the status, and the
*out_first_index result (0 when the call failed before assigning it). -/
def raft_propose_batch (n : Node) (cmds : List (List Nat))
    (appendOk persistOk : Nat → Bool) : Node × Status × Nat :=
  if !n.running then (n, .stopped, 0)
  else if n.role ≠ .leader then (n, .notLeader, 0)
  else if cmds.length = 0 then (n, .invalidArg, 0)
  else
    let r := batchLoop n.current_term n.has_storage appendOk persistOk cmds n.log 0 0
    if r.2.1 = .ok then
      ({ n with log := r.1,
                match_index := n.match_index.set n.node_id (raft_log_last_index r.1) },
       .ok, r.2.2)
    else ({ n with log := r.1 }, r.2.1, r.2.2)

/-- A pending ReadIndex request, read.h raft_read_request_t (the
callback pointer is represented by its opaque ctx). -/
structure ReadReq where
  read_index : Nat
  ctx : Nat
  acks_needed : Nat
  acks_received : Nat
  acked : List Bool
deriving DecidableEq, Repr

/-- read.c raft_read_cancel_all over the module-level g_pending_reads
list: every pending request's callback is invoked with NOT_LEADER and
the list is emptied. -/
def raft_read_cancel_all (reads : List ReadReq) : List ReadReq × List Event :=
  ([], reads.map (fun r => Event.readCallback r.ctx .notLeader))

/-- The combined effect of election.c raft_step_down on the node
together with read.c's module-level pending-read list: the function
body touches only the node (it contains no reference to the read
module), so the pending list passes through unchanged and no read
callback runs. -/
def raft_step_down_system (n : Node) (reads : List ReadReq)
    (new_term ft : Nat) : (Node × List ReadReq) × List Event :=
  ((raft_step_down n new_term ft, reads), [])

/-- snapshot.c raft_snapshot_install: the on-disk raft_snapshot_create
write (taken to succeed) frees no in-memory state; then the entire
entries array is discarded, the base is re-anchored at the snapshot
point, and commit_index / last_applied are raised to at least
last_index. -/
def raft_snapshot_install (n : Node) (last_index last_term : Nat) :
    Node × Status :=
  let n := { n with log := { entries := [],
                             base_index := last_index,
                             base_term := last_term } }
  let n := if n.commit_index < last_index then
             { n with commit_index := last_index }
           else n
  let n := if n.last_applied < last_index then
             { n with last_applied := last_index }
           else n
  (n, .ok)

/-- Modelled from the spec: raft_handle_pre_vote is declared and tested
(tests/unit/test_phase6.c) but its implementation is not among the
shown sources.  Spec section 4.6: a peer grants a PreVote iff it has
not heard from a leader within one election timeout AND the candidate's
log is up-to-date; the response carries the responder's current_term;
a PreVote neither changes the responder's term nor its voted_for, and
the responder's state is left as it was. -/
def raft_handle_pre_vote (n : Node) (req : PreVoteMsg) :
    Node × (Nat × Bool) :=
  let timed_out := n.election_timeout_ms ≤ n.election_timer_ms
  let granted := timed_out &&
    is_log_up_to_date n req.last_log_term req.last_log_index
  (n, (n.current_term, granted))

/-! CRC32 (crc32.c) and the state-file persistence layer (storage.c),
modelled at byte level.  A byte is a Nat below 256; multi-byte integer
fields are laid out little-endian, matching the packed structs the C
code writes on x86. -/

/-- The CRC32 polynomial constant of crc32.c (reflected form). -/
def CRC_POLY : Nat := 0xEDB88320

/-- One iteration of the inner loop of init_crc32_table. -/
def crcStep (c : Nat) : Nat :=
  if c % 2 = 1 then (c >>> 1) ^^^ CRC_POLY else c >>> 1

/-- crc32.c init_crc32_table: table[n] is n run through eight
crcStep iterations. -/
def crc32_table (n : Nat) : Nat := crcStep^[8] n

/-- The per-byte accumulation step of crc32_update. -/
def crc32_fold (c b : Nat) : Nat :=
  crc32_table ((c ^^^ b) &&& 255) ^^^ (c >>> 8)

/-- crc32.c crc32_update (the ~crc complement on a uint32 is xor with
0xFFFFFFFF). -/
def crc32_update (crc : Nat) (data : List Nat) : Nat :=
  (data.foldl crc32_fold (crc ^^^ 0xFFFFFFFF)) ^^^ 0xFFFFFFFF

/-- crc32.c crc32. -/
def crc32 (data : List Nat) : Nat := crc32_update 0 data

/-- storage.h magic/version constants. -/
def RAFT_STATE_MAGIC : Nat := 0x52414654

def RAFT_STORAGE_VERSION : Nat := 1

/-- Little-endian byte serialization of a w-byte unsigned field. -/
def natToBytesLE : Nat → Nat → List Nat
  | 0, _ => []
  | w + 1, v => (v % 256) :: natToBytesLE w (v / 256)

/-- Little-endian byte deserialization. -/
def bytesToNatLE : List Nat → Nat
  | [] => 0
  | b :: rest => b + 256 * bytesToNatLE rest

/-- The two's-complement uint32 bit pattern of an int32 voted_for. -/
def int32Bits (v : Int) : Nat := (v % 4294967296).toNat

/-- Reading an int32 back from its uint32 bit pattern. -/
def int32OfBits (r : Nat) : Int :=
  if r < 2147483648 then (r : Int) else (r : Int) - 4294967296

/-- The CRC-covered region of the state file: the current_term and
voted_for fields (storage.c computes the CRC over exactly these
12 bytes). -/
def stateCrcRegion (t : Nat) (v : Int) : List Nat :=
  natToBytesLE 8 t ++ natToBytesLE 4 (int32Bits v)

/-- The 28 bytes of raft_state.dat as written by
storage.c raft_storage_save_state:
magic(4) version(4) crc32(4) current_term(8) voted_for(4) padding(4). -/
def state_file_bytes (t : Nat) (v : Int) : List Nat :=
  natToBytesLE 4 RAFT_STATE_MAGIC ++
  natToBytesLE 4 RAFT_STORAGE_VERSION ++
  natToBytesLE 4 (crc32 (stateCrcRegion t v)) ++
  stateCrcRegion t v ++
  natToBytesLE 4 0

/-- storage.c raft_storage_save_state: the atomic
write-temp-then-rename is abstracted as producing the file's bytes
(the I/O itself taken to succeed). -/
def raft_storage_save_state (t : Nat) (v : Int) : List Nat × Status :=
  (state_file_bytes t v, .ok)

/-- storage.c raft_storage_load_state, reading a state file image:
short read is IO_ERROR; magic, version or CRC mismatch is CORRUPTION;
otherwise OK with the decoded (current_term, voted_for). -/
def raft_storage_load_state (bytes : List Nat) : Status × Option (Nat × Int) :=
  if bytes.length ≠ 28 then (.ioError, none)
  else
    let magic := bytesToNatLE (bytes.take 4)
    let version := bytesToNatLE ((bytes.drop 4).take 4)
    let crc_stored := bytesToNatLE ((bytes.drop 8).take 4)
    let region := (bytes.drop 12).take 12
    if magic ≠ RAFT_STATE_MAGIC then (.corruption, none)
    else if version ≠ RAFT_STORAGE_VERSION then (.corruption, none)
    else if crc_stored ≠ crc32 region then (.corruption, none)
    else (.ok, some (bytesToNatLE (region.take 8),
                     int32OfBits (bytesToNatLE (region.drop 8))))

/-- The batch of entries raft_propose_batch creates on success: one
COMMAND entry per command, at consecutive indices from start, all at
the proposing term. -/
def mkEntries (term : Nat) : Nat → List (List Nat) → List Entry
  | _, [] => []
  | start, c :: rest => ⟨term, start, 0, c⟩ :: mkEntries term (start + 1) rest

/-- Recognizer for apply-callback events. -/
def isApplyEvent : Event → Bool
  | .applyEntry _ => true
  | _ => false

/-- Recognizer for raft_storage_save_state events. -/
def isSaveStateEvent : Event → Bool
  | .saveState _ _ => true
  | _ => false

/-! Concrete fixtures used by the closed theorems and witnesses. -/

/-- A three-node follower (id 1) at term 1 holding the single entry
(term 1, index 1, payload byte 120), with all callbacks and storage
configured. -/
def followerNode : Node :=
  { node_id := 1, num_nodes := 3, role := .follower, current_term := 1,
    voted_for := -1, commit_index := 0, last_applied := 0,
    next_index := [0, 0, 0], match_index := [0, 0, 0],
    log := { entries := [⟨1, 1, 0, [120]⟩], base_index := 0, base_term := 0 },
    running := true, current_leader := -1, votes_received := 0,
    votes_granted := [false, false, false], election_timeout_ms := 150,
    election_timer_ms := 0, heartbeat_timer_ms := 0,
    has_send_fn := true, has_apply_fn := true, has_storage := true }

/-- A three-node leader (id 0) at term 1 with an empty log. -/
def snapLeader : Node :=
  { followerNode with
    node_id := 0, role := .leader, current_leader := 0,
    log := { entries := [], base_index := 0, base_term := 0 },
    next_index := [1, 1, 1], has_storage := false }

/-- An empty-log heartbeat from leader 0 at term 1 carrying
leader_commit = 1. -/
def hbMsg : AppendEntriesMsg :=
  { term := 1, leader_id := 0, prev_log_index := 1, prev_log_term := 1,
    leader_commit := 1, entries := [] }

/-- Five proposed commands, as in the snapshot-truncation scenario. -/
def snapCmds : List (List Nat) :=
  [[99, 48], [99, 49], [99, 50], [99, 51], [99, 52]]

/-- The leader after proposing the five commands (indices 1..5). -/
def snapAfterProps : Node :=
  snapCmds.foldl (fun n c => (raft_propose n c).1) snapLeader

/-- The same node after raft_snapshot_install with
last_index = 3, last_term = 1. -/
def snapInstalled : Node := (raft_snapshot_install snapAfterProps 3 1).1

/-- A three-node leader (id 0) at term 1 holding two term-1 entries,
with peer 1 having replicated both (match_index 2). -/
def advLeader : Node :=
  { followerNode with
    node_id := 0, role := .leader, current_leader := 0,
    log := { entries := [⟨1, 1, 0, [120]⟩, ⟨1, 2, 0, [121]⟩],
             base_index := 0, base_term := 0 },
    next_index := [3, 3, 3], match_index := [0, 2, 0] }

/-- A pending ReadIndex request with user context 7. -/
def pendingRead1 : ReadReq :=
  { read_index := 0, ctx := 7, acks_needed := 1, acks_received := 0,
    acked := [false, false, false] }

end Raft

open Raft

/-- C9: processing a PreVote request leaves the responder's
current_term and voted_for unchanged, whether or not the pre-vote is
granted: the spec-modelled raft_handle_pre_vote returns the node with
both fields (indeed the whole state) untouched, and the dispatcher
raft_receive_message of election.c also leaves the node unchanged on a
PRE_VOTE-tagged message. -/
theorem C9_pre_vote_preserves_term_and_vote (n : Node) (req : PreVoteMsg)
    (from_node : Int) (ft : Nat) :
    (raft_handle_pre_vote n req).1.current_term = n.current_term ∧
    (raft_handle_pre_vote n req).1.voted_for = n.voted_for ∧
    (raft_receive_message n from_node (.preVote req) ft).1 = n :=
  ⟨rfl, rfl, rfl⟩

/-- C10: raft_receive_message on any delivered message whose leading
tag is not REQUEST_VOTE (1), REQUEST_VOTE_RESPONSE (2),
APPEND_ENTRIES (3) or APPEND_ENTRIES_RESPONSE (4) returns INVALID_ARG,
leaves the node state unchanged, and produces no send events. -/
theorem C10_unknown_tag_rejected (n : Node) (from_node : Int) (ft : Nat)
    (m : Msg) (h : msgTag m ≠ 1 ∧ msgTag m ≠ 2 ∧ msgTag m ≠ 3 ∧ msgTag m ≠ 4) :
    raft_receive_message n from_node m ft = (n, [], Status.invalidArg) := by
  cases m with
  | requestVote rv => exact absurd rfl h.1
  | requestVoteResponse r => exact absurd rfl h.2.1
  | appendEntries ae => exact absurd rfl h.2.2.1
  | appendEntriesResponse r => exact absurd rfl h.2.2.2
  | installSnapshot t l li lt d => rfl
  | installSnapshotResponse t s => rfl
  | preVote m => rfl
  | preVoteResponse t g => rfl
  | timeoutNow t l => rfl
  | unknownTag t => rfl

/-- Witness for C10 at a concrete input: a TIMEOUT_NOW message (tag 9)
delivered to the concrete follower is rejected with INVALID_ARG and no
state change. -/
theorem C10_unknown_tag_rejected_witness :
    raft_receive_message followerNode 0 (.timeoutNow 1 0) 200 =
      (followerNode, [], Status.invalidArg) :=
  C10_unknown_tag_rejected followerNode 0 200 (.timeoutNow 1 0)
    (by refine ⟨?_, ?_, ?_, ?_⟩ <;> decide)

/-- C8 (divergence record): election.c raft_step_down performs no
read-cancellation: stepping the concrete leader down to term 5 leaves
the one outstanding read request pending and invokes no callback,
while read.c raft_read_cancel_all, which no code in the source calls
on step-down, is what would have completed it with NOT_LEADER. -/
theorem C8_step_down_leaves_pending_reads :
    (raft_step_down_system snapLeader [pendingRead1] 5 200).1.2 = [pendingRead1] ∧
    (raft_step_down_system snapLeader [pendingRead1] 5 200).2 = [] ∧
    (raft_step_down_system snapLeader [pendingRead1] 5 200).1.1.role = Role.follower ∧
    raft_read_cancel_all [pendingRead1] =
      ([], [Event.readCallback 7 Status.notLeader]) :=
  ⟨rfl, rfl, rfl, rfl⟩

/-- C3 (divergence record): raft_start_election on the concrete
follower (which has durable storage configured) increments the term to
2, votes for itself, and hands two RequestVote messages to the send
callback, while its event trace contains no raft_storage_save_state
call at all — in particular none before the first send. -/
theorem C3_start_election_sends_without_persisting :
    (raft_start_election followerNode 200).1.current_term = 2 ∧
    (raft_start_election followerNode 200).1.voted_for = 1 ∧
    (raft_start_election followerNode 200).2.1 =
      [Event.send 0 (.requestVote ⟨2, 1, 1, 1⟩),
       Event.send 2 (.requestVote ⟨2, 1, 1, 1⟩)] ∧
    (raft_start_election followerNode 200).2.1.countP isSaveStateEvent = 0 ∧
    followerNode.has_storage = true := by
  decide

/-- C2 (divergence record): a zero-entry heartbeat carrying
leader_commit = 1, delivered through raft_receive_message to the
concrete follower, advances commit_index to 1 but invokes the apply
callback zero times and leaves last_applied at 0; the replication.c
handler raft_handle_append_entries_with_log on the very same input
applies the newly committed entry as the claim describes. -/
theorem C2_heartbeat_commits_without_apply :
    ((raft_receive_message followerNode 0 (.appendEntries hbMsg) 200).1.commit_index = 1 ∧
     (raft_receive_message followerNode 0 (.appendEntries hbMsg) 200).1.last_applied = 0 ∧
     (raft_receive_message followerNode 0 (.appendEntries hbMsg) 200).2.1.countP isApplyEvent = 0 ∧
     (raft_receive_message followerNode 0 (.appendEntries hbMsg) 200).2.2 = Status.ok) ∧
    ((raft_handle_append_entries_with_log followerNode hbMsg 200).1.commit_index = 1 ∧
     (raft_handle_append_entries_with_log followerNode hbMsg 200).1.last_applied = 1 ∧
     (raft_handle_append_entries_with_log followerNode hbMsg 200).2.2 =
       [Event.applyEntry ⟨1, 1, 0, [120]⟩]) := by
  decide

/-- C5 counterexample: after proposing entries 1..5 on the concrete
leader and installing the snapshot (last_index 3, last_term 1), the
log's base_index is 3, get(3) is NONE and commit_index is at least 3,
but get(4) does NOT return the original entry 4 — install discards the
whole log, so get(4) is NONE. -/
theorem C5_snapshot_install_counterexample :
    raft_log_last_index snapAfterProps.log = 5 ∧
    raft_log_get snapAfterProps.log 4 = some ⟨1, 4, 0, [99, 51]⟩ ∧
    snapInstalled.log.base_index = 3 ∧
    raft_log_get snapInstalled.log 3 = none ∧
    3 ≤ snapInstalled.commit_index ∧
    raft_log_get snapInstalled.log 4 ≠ some ⟨1, 4, 0, [99, 51]⟩ ∧
    raft_log_get snapInstalled.log 4 = none := by
  decide

/-- C5 amended: in the same scenario the install resets the log to
empty at anchor (base_index 3, base_term 1): get(3) and get(4) are both
NONE (no entry above the snapshot index survives) and commit_index and
last_applied are raised to at least 3. -/
theorem C5_snapshot_install_amended :
    snapInstalled.log.base_index = 3 ∧
    snapInstalled.log.base_term = 1 ∧
    snapInstalled.log.entries = [] ∧
    raft_log_get snapInstalled.log 3 = none ∧
    raft_log_get snapInstalled.log 4 = none ∧
    3 ≤ snapInstalled.commit_index ∧
    3 ≤ snapInstalled.last_applied := by
  decide

/-- C4: raft_handle_request_vote grants the vote (vote_granted true,
voted_for set to the candidate, election timer reset to 0) if and only
if, after any step-down forced by a strictly greater request term, the
request term equals current_term (n.current_term <= req.term), voted_for
is NONE (-1) or the candidate (automatic when a step-down cleared it),
and the candidate log is at least as up-to-date; and in every case the
reply carries the responder's (possibly stepped-down) current_term. -/
theorem C4_request_vote_grant_iff (n : Node) (req : RequestVoteMsg) (ft : Nat) :
    ((raft_handle_request_vote n req ft).2.vote_granted = true ↔
      (n.current_term ≤ req.term ∧
       (n.current_term < req.term ∨ n.voted_for = -1 ∨ n.voted_for = req.candidate_id) ∧
       is_log_up_to_date n req.last_log_term req.last_log_index = true)) ∧
    ((raft_handle_request_vote n req ft).2.vote_granted = true →
      (raft_handle_request_vote n req ft).1.voted_for = req.candidate_id ∧
      (raft_handle_request_vote n req ft).1.election_timer_ms = 0) ∧
    ((raft_handle_request_vote n req ft).2.term =
      (raft_handle_request_vote n req ft).1.current_term) := by
  unfold raft_handle_request_vote
  by_cases h1 : n.current_term < req.term
  · simp only [if_pos h1]
    have hterm : (raft_step_down n req.term ft).current_term = req.term := rfl
    have hvf : (raft_step_down n req.term ft).voted_for = -1 := rfl
    have hlog : is_log_up_to_date (raft_step_down n req.term ft) req.last_log_term req.last_log_index
        = is_log_up_to_date n req.last_log_term req.last_log_index := rfl
    by_cases h2 : is_log_up_to_date n req.last_log_term req.last_log_index = true
    · simp [hterm, hvf, hlog, h2, raft_reset_election_timer, Nat.le_of_lt h1, h1]
    · simp [hterm, hvf, hlog, h2, raft_reset_election_timer, Nat.le_of_lt h1, h1]
  · simp only [if_neg h1]
    by_cases h2 : req.term < n.current_term
    · simp only [if_pos h2]
      exact And.intro
        (Iff.intro (fun h => nomatch h) (fun h => absurd h.1 (by omega)))
        (And.intro (fun h => nomatch h) trivial)
    · have heq : req.term = n.current_term := by omega
      by_cases h3 : (n.voted_for = -1 ∨ n.voted_for = req.candidate_id)
      · by_cases h4 : is_log_up_to_date n req.last_log_term req.last_log_index = true
        · simp [h2, h3, h4, raft_reset_election_timer, heq, h1]
        · simp [h2, h3, h4, heq, h1]
      · simp [h2, h3, heq, h1]

namespace Raft

/-- Two logs with equal fields are equal. -/
theorem log_eq {l1 l2 : Log} (he : l1.entries = l2.entries)
    (hbi : l1.base_index = l2.base_index) (hbt : l1.base_term = l2.base_term) :
    l1 = l2 := by
  obtain ⟨a, b, c⟩ := l1
  obtain ⟨a', b', c'⟩ := l2
  simp_all

/-- Truncating an extended log back at the original last index restores
the original log. -/
theorem truncate_after_restores (orig : Log) (extra : List Entry) :
    raft_log_truncate_after { orig with entries := orig.entries ++ extra }
      (raft_log_last_index orig) = orig := by
  obtain ⟨es, bi, bt⟩ := orig
  unfold raft_log_truncate_after raft_log_last_index
  simp only [List.length_append]
  split_ifs with h1 h2
  · have hx : extra = [] := List.length_eq_zero.mp (by omega)
    simp [hx]
  · have hx : es = [] := List.length_eq_zero.mp (by omega)
    simp [hx]
  · have harith : bi + es.length - bi = es.length := by omega
    simp [harith, List.take_left]

/-- mkEntries produces one entry per command. -/
theorem mkEntries_length (term : Nat) : ∀ (start : Nat) (cmds : List (List Nat)),
    (mkEntries term start cmds).length = cmds.length := by
  intro start cmds
  induction cmds generalizing start with
  | nil => rfl
  | cons c rest ih => simp [mkEntries, ih]

/-- Appending bumps last_index by one. -/
theorem last_index_append (log : Log) (term : Nat) (c : List Nat) :
    raft_log_last_index (raft_log_append log term c).1 = raft_log_last_index log + 1 := by
  simp [raft_log_append, raft_log_last_index]
  omega

/-- On any failure outcome, batchLoop hands back exactly the log it was
started from (the C rollback truncates at first_index - 1). -/
theorem batchLoop_fail (term : Nat) (aOk pOk : Nat → Bool) :
    ∀ (hs : Bool) (cmds : List (List Nat)) (log : Log) (i first : Nat) (orig : Log),
    log.base_index = orig.base_index →
    log.base_term = orig.base_term →
    (i = 0 → first = 0 ∧ log.entries = orig.entries) →
    (i ≠ 0 → first = raft_log_last_index orig + 1 ∧
             ∃ ex, log.entries = orig.entries ++ ex) →
    (batchLoop term hs aOk pOk cmds log i first).2.1 ≠ .ok →
    (batchLoop term hs aOk pOk cmds log i first).1 = orig := by
  intro hs cmds
  induction cmds generalizing hs with
  | nil =>
    intro log i first orig hbi hbt h0 hpos hne
    exact absurd rfl hne
  | cons c rest ih =>
    intro log i first orig hbi hbt h0 hpos hne
    by_cases ha : aOk i
    · unfold batchLoop at hne ⊢
      simp only [ha, if_true] at hne ⊢
      have hlog' : (raft_log_append log term c).1.entries =
          log.entries ++ [⟨term, log.base_index + log.entries.length + 1, 0, c⟩] := rfl
      have hbi' : (raft_log_append log term c).1.base_index = orig.base_index := hbi
      have hbt' : (raft_log_append log term c).1.base_term = orig.base_term := hbt
      have hfirst' : (if i = 0 then (raft_log_append log term c).2 else first) =
          raft_log_last_index orig + 1 := by
        by_cases hi : i = 0
        · obtain ⟨-, hent⟩ := h0 hi
          simp only [hi, if_true]
          show log.base_index + log.entries.length + 1 = raft_log_last_index orig + 1
          rw [hbi, hent]
          rfl
        · simp only [hi, if_false]
          exact (hpos hi).1
      have hex' : ∃ ex, (raft_log_append log term c).1.entries = orig.entries ++ ex := by
        by_cases hi : i = 0
        · obtain ⟨-, hent⟩ := h0 hi
          exact ⟨_, by rw [hlog', hent]⟩
        · obtain ⟨-, ex, hent⟩ := hpos hi
          exact ⟨ex ++ [⟨term, log.base_index + log.entries.length + 1, 0, c⟩],
                 by rw [hlog', hent, List.append_assoc]⟩
      rcases Bool.eq_false_or_eq_true hs with hstore | hstore
      · subst hstore
        simp only [if_true] at hne ⊢
        by_cases hp : pOk i
        · simp only [hp, if_true] at hne ⊢
          exact ih true _ (i + 1) _ orig hbi' hbt'
            (fun h => absurd h (Nat.succ_ne_zero i)) (fun _ => ⟨hfirst', hex'⟩) hne
        · simp only [hp, if_false] at hne ⊢
          obtain ⟨ex, hent⟩ := hex'
          have hrw : (raft_log_append log term c).1 =
              { orig with entries := orig.entries ++ ex } :=
            log_eq hent hbi' hbt'
          rw [hfirst']
          simp only [Nat.add_sub_cancel, hrw]
          exact truncate_after_restores orig ex
      · subst hstore
        simp only [Bool.false_eq_true, if_false] at hne ⊢
        exact ih false _ (i + 1) _ orig hbi' hbt'
          (fun h => absurd h (Nat.succ_ne_zero i)) (fun _ => ⟨hfirst', hex'⟩) hne
    · unfold batchLoop at hne ⊢
      simp only [ha, if_false] at hne ⊢
      by_cases hi : i = 0
      · obtain ⟨hf, hent⟩ := h0 hi
        rw [hf]
        rw [if_neg (by omega : ¬ (0 : Nat) < 0)]
        exact log_eq hent hbi hbt
      · obtain ⟨hf, ex, hent⟩ := hpos hi
        rw [if_pos (by rw [hf]; omega : 0 < first)]
        have hrw : log = { orig with entries := orig.entries ++ ex } :=
          log_eq hent hbi hbt
        rw [hf, hrw]
        simp only [Nat.add_sub_cancel]
        exact truncate_after_restores orig ex

/-- On the OK outcome, batchLoop appended exactly one COMMAND entry per
command, contiguously from last_index + 1, and reports the index of the
first one. -/
theorem batchLoop_ok (term : Nat) (aOk pOk : Nat → Bool) :
    ∀ (cmds : List (List Nat)) (hs : Bool) (log : Log) (i first : Nat),
    (batchLoop term hs aOk pOk cmds log i first).2.1 = .ok →
    (batchLoop term hs aOk pOk cmds log i first).1.entries =
      log.entries ++ mkEntries term (raft_log_last_index log + 1) cmds ∧
    (batchLoop term hs aOk pOk cmds log i first).1.base_index = log.base_index ∧
    (batchLoop term hs aOk pOk cmds log i first).1.base_term = log.base_term ∧
    (batchLoop term hs aOk pOk cmds log i first).2.2 =
      (if cmds.length = 0 then first
       else if i = 0 then raft_log_last_index log + 1 else first) := by
  intro cmds
  induction cmds with
  | nil =>
    intro hs log i first hok
    simp [batchLoop, mkEntries]
  | cons c rest ih =>
    intro hs log i first hok
    by_cases ha : aOk i
    · unfold batchLoop at hok ⊢
      simp only [ha, if_true] at hok ⊢
      have hcont :
          ∀ h2 : (batchLoop term hs aOk pOk rest (raft_log_append log term c).1 (i + 1)
                   (if i = 0 then (raft_log_append log term c).2 else first)).2.1 = .ok,
          (batchLoop term hs aOk pOk rest (raft_log_append log term c).1 (i + 1)
            (if i = 0 then (raft_log_append log term c).2 else first)).1.entries =
            log.entries ++ mkEntries term (raft_log_last_index log + 1) (c :: rest) ∧
          (batchLoop term hs aOk pOk rest (raft_log_append log term c).1 (i + 1)
            (if i = 0 then (raft_log_append log term c).2 else first)).1.base_index =
            log.base_index ∧
          (batchLoop term hs aOk pOk rest (raft_log_append log term c).1 (i + 1)
            (if i = 0 then (raft_log_append log term c).2 else first)).1.base_term =
            log.base_term ∧
          (batchLoop term hs aOk pOk rest (raft_log_append log term c).1 (i + 1)
            (if i = 0 then (raft_log_append log term c).2 else first)).2.2 =
            (if (c :: rest).length = 0 then first
             else if i = 0 then raft_log_last_index log + 1 else first) := by
        intro h2
        obtain ⟨he, hbi, hbt, hf⟩ := ih hs (raft_log_append log term c).1 (i + 1)
          (if i = 0 then (raft_log_append log term c).2 else first) h2
        refine ⟨?_, hbi, hbt, ?_⟩
        · rw [he, last_index_append]
          show log.entries ++ [(⟨term, log.base_index + log.entries.length + 1, 0, c⟩ : Entry)]
              ++ mkEntries term (raft_log_last_index log + 1 + 1) rest = _
          rw [List.append_assoc]
          rfl
        · rw [hf]
          have hff : (if rest.length = 0
                then (if i = 0 then (raft_log_append log term c).2 else first)
                else if i + 1 = 0
                then raft_log_last_index (raft_log_append log term c).1 + 1
                else (if i = 0 then (raft_log_append log term c).2 else first)) =
              (if i = 0 then (raft_log_append log term c).2 else first) := by
            by_cases hl : rest.length = 0
            · rw [if_pos hl]
            · rw [if_neg hl, if_neg (Nat.succ_ne_zero i)]
          rw [hff]
          simp only [List.length_cons, if_neg (Nat.succ_ne_zero rest.length)]
          by_cases hi : i = 0
          · simp only [hi, if_true]
            simp [raft_log_append, raft_log_last_index]
          · simp only [hi, if_false]
      rcases Bool.eq_false_or_eq_true hs with hstore | hstore
      · subst hstore
        simp only [if_true] at hok ⊢
        by_cases hp : pOk i
        · simp only [hp, if_true] at hok ⊢
          exact hcont hok
        · simp only [hp, if_false] at hok
          exact absurd hok (by simp)
      · subst hstore
        simp only [Bool.false_eq_true, if_false] at hok ⊢
        exact hcont hok
    · unfold batchLoop at hok
      simp only [ha, if_false] at hok
      exact absurd hok (by simp)

end Raft

open Raft in
/-- C6: raft_propose_batch is atomic on failure and contiguous on
success: for any append/persist failure oracle, a failing batch leaves
the in-memory log exactly as it was before the call and returns the
error status, while a successful batch returns the index
last_index + 1 of the first command and appends one entry per command
at successive indices at the leader's term. -/
theorem C6_propose_batch_atomic (n : Node) (cmds : List (List Nat))
    (aOk pOk : Nat → Bool) (h1 : n.running = true) (h2 : n.role = Role.leader)
    (h3 : cmds ≠ []) :
    ((raft_propose_batch n cmds aOk pOk).2.1 ≠ Status.ok →
       (raft_propose_batch n cmds aOk pOk).1.log = n.log) ∧
    ((raft_propose_batch n cmds aOk pOk).2.1 = Status.ok →
       (raft_propose_batch n cmds aOk pOk).2.2 = raft_log_last_index n.log + 1 ∧
       (raft_propose_batch n cmds aOk pOk).1.log.entries =
         n.log.entries ++ mkEntries n.current_term (raft_log_last_index n.log + 1) cmds ∧
       (raft_propose_batch n cmds aOk pOk).1.log.base_index = n.log.base_index ∧
       raft_log_last_index (raft_propose_batch n cmds aOk pOk).1.log =
         raft_log_last_index n.log + cmds.length) := by
  have hlen : ¬ cmds.length = 0 := fun h => h3 (List.length_eq_zero.mp h)
  unfold raft_propose_batch
  rw [h1]
  simp only [Bool.not_true, Bool.false_eq_true, if_false]
  rw [if_neg (by rw [h2]; simp : ¬ n.role ≠ Role.leader), if_neg hlen]
  by_cases hok :
      (batchLoop n.current_term n.has_storage aOk pOk cmds n.log 0 0).2.1 = Status.ok
  · rw [if_pos hok]
    refine ⟨fun hne => absurd rfl hne, fun _ => ?_⟩
    obtain ⟨he, hbi, hbt, hf⟩ := batchLoop_ok n.current_term aOk pOk cmds
      n.has_storage n.log 0 0 hok
    rw [if_neg hlen, if_pos rfl] at hf
    refine ⟨hf, he, hbi, ?_⟩
    unfold raft_log_last_index
    rw [he, hbi, List.length_append, mkEntries_length]
    omega
  · rw [if_neg hok]
    refine ⟨fun _ => ?_, fun hisok => absurd hisok hok⟩
    exact batchLoop_fail n.current_term aOk pOk n.has_storage cmds n.log 0 0 n.log
      rfl rfl (fun _ => ⟨rfl, rfl⟩) (fun h => absurd rfl h) hok

open Raft in
/-- Witness for C6: the concrete storage-backed leader batch-proposing
five commands with the persistence of the third failing rolls the log
back to empty and reports IO_ERROR; with no failure the batch succeeds
at first index 1. -/
theorem C6_propose_batch_atomic_witness :
    ((raft_propose_batch { snapLeader with has_storage := true } snapCmds (fun _ => true)
        (fun i => !(i == 2))).1.log = snapLeader.log ∧
     (raft_propose_batch { snapLeader with has_storage := true } snapCmds (fun _ => true)
        (fun i => !(i == 2))).2.1 = Status.ioError) ∧
    ((raft_propose_batch { snapLeader with has_storage := true } snapCmds (fun _ => true)
        (fun _ => true)).2.2 =
      raft_log_last_index { snapLeader with has_storage := true }.log + 1) := by
  refine ⟨⟨?_, by decide⟩, ?_⟩
  · exact (C6_propose_batch_atomic { snapLeader with has_storage := true } snapCmds
      (fun _ => true) (fun i => !(i == 2)) rfl rfl (by decide)).1 (by decide)
  · exact ((C6_propose_batch_atomic { snapLeader with has_storage := true } snapCmds
      (fun _ => true) (fun _ => true) rfl rfl (by decide)).2 (by decide)).1

namespace Raft

/-- The fold of commit.c's scan loop returns the greatest index in the
scanned range satisfying the predicate, or the initial accumulator when
none does. -/
theorem range'_foldl_greatest (P : Nat → Prop) [DecidablePred P] :
    ∀ (len start acc : Nat),
    (((List.range' start len).foldl (fun a N => if P N then N else a) acc = acc ∧
       ∀ N, start ≤ N → N < start + len → ¬ P N) ∨
     (P ((List.range' start len).foldl (fun a N => if P N then N else a) acc) ∧
      start ≤ (List.range' start len).foldl (fun a N => if P N then N else a) acc ∧
      (List.range' start len).foldl (fun a N => if P N then N else a) acc < start + len ∧
      ∀ N, start ≤ N → N < start + len → P N →
        N ≤ (List.range' start len).foldl (fun a N => if P N then N else a) acc)) := by
  intro len
  induction len with
  | zero =>
    intro start acc
    exact Or.inl ⟨rfl, fun N h1 h2 => absurd (Nat.lt_of_le_of_lt h1 h2) (by omega)⟩
  | succ k ih =>
    intro start acc
    rw [List.range'_succ, List.foldl_cons]
    by_cases hs : P start
    · rw [if_pos hs]
      rcases ih (start + 1) start with ⟨hr, hnone⟩ | ⟨hp, hlo, hhi, hmax⟩
      · refine Or.inr ⟨?_, ?_, ?_, ?_⟩
        · rw [hr]; exact hs
        · rw [hr]
        · rw [hr]; omega
        · intro N h1 h2 hPN
          rcases Nat.eq_or_lt_of_le h1 with he | hlt
          · omega
          · exact absurd hPN (hnone N hlt (by omega))
      · refine Or.inr ⟨hp, by omega, by omega, ?_⟩
        intro N h1 h2 hPN
        rcases Nat.eq_or_lt_of_le h1 with he | hlt
        · omega
        · exact hmax N hlt (by omega) hPN
    · rw [if_neg hs]
      rcases ih (start + 1) acc with ⟨hr, hnone⟩ | ⟨hp, hlo, hhi, hmax⟩
      · refine Or.inl ⟨hr, ?_⟩
        intro N h1 h2
        rcases Nat.eq_or_lt_of_le h1 with he | hlt
        · rw [← he]; exact hs
        · exact hnone N hlt (by omega)
      · refine Or.inr ⟨hp, by omega, by omega, ?_⟩
        intro N h1 h2 hPN
        rcases Nat.eq_or_lt_of_le h1 with he | hlt
        · omega
        · exact hmax N hlt (by omega) hPN

/-- applyLoop bumps last_applied k times, touches nothing else, and
emits the apply events of the present entries in increasing index
order. -/
theorem applyLoop_spec : ∀ (k : Nat) (n : Node),
    (applyLoop n k).1 = { n with last_applied := n.last_applied + k } ∧
    (applyLoop n k).2 = (List.range' (n.last_applied + 1) k).filterMap
      (fun i => (raft_log_get n.log i).map Event.applyEntry) := by
  intro k
  induction k with
  | zero => intro n; exact ⟨rfl, rfl⟩
  | succ k ih =>
    intro n
    obtain ⟨h1, h2⟩ := ih { n with last_applied := n.last_applied + 1 }
    constructor
    · show (applyLoop { n with last_applied := n.last_applied + 1 } k).1 = _
      rw [h1]
      show ({ n with last_applied := n.last_applied + 1 + k } : Node) = _
      rw [Nat.add_assoc, Nat.add_comm 1 k]
    · show (match raft_log_get n.log (n.last_applied + 1) with
            | some e => [Event.applyEntry e]
            | none => []) ++
          (applyLoop { n with last_applied := n.last_applied + 1 } k).2 = _
      rw [h2, List.range'_succ, List.filterMap_cons]
      cases raft_log_get n.log (n.last_applied + 1) with
      | some e => simp
      | none => simp

/-- Counting with a predicate that accepts a distinguished element id
versus one that rejects it. -/
theorem countP_with_self (id : Nat) (p q : Nat → Bool)
    (hpq : ∀ i, i ≠ id → p i = q i) (hp : p id = true) (hq : q id = false) :
    ∀ l : List Nat, l.countP p = l.countP q + l.count id := by
  intro l
  induction l with
  | nil => rfl
  | cons a l ihl =>
    by_cases ha : a = id
    · subst ha
      rw [List.countP_cons, List.countP_cons, List.count_cons]
      simp [hp, hq, ihl]
      omega
    · rw [List.countP_cons, List.countP_cons, List.count_cons]
      simp [hpq a ha, if_neg ha, ihl]
      omega

/-- Each id below n occurs exactly once in List.range n. -/
theorem count_range_self (id n : Nat) (h : id < n) :
    (List.range n).count id = 1 := by
  induction n with
  | zero => omega
  | succ k ihn =>
    rw [List.range_succ, List.count_append]
    by_cases hk : id = k
    · subst hk
      have hzero : (List.range id).count id = 0 := by
        rw [List.count_eq_zero]
        intro hmem
        exact absurd (List.mem_range.mp hmem) (by omega)
      simp [hzero]
    · have hlt : id < k := by omega
      rw [ihn hlt]
      simp [List.count_singleton, hk]

/-- For N not above the leader's last index, the loop count of
commit.c (1 for the leader plus the peers with match_index >= N)
equals the claim-side count over all num_nodes members with the leader
standing for its own last_index(). -/
theorem matchCount_eq_claim_count (n : Node) (N : Nat)
    (hid : n.node_id < n.num_nodes) (hN : N ≤ raft_log_last_index n.log) :
    (List.range n.num_nodes).countP
        (fun i => decide (N ≤ (if i = n.node_id then raft_log_last_index n.log
                               else n.match_index.getD i 0))) = matchCount n N := by
  unfold matchCount
  have hsplit := countP_with_self n.node_id
    (fun i => decide (N ≤ (if i = n.node_id then raft_log_last_index n.log
                           else n.match_index.getD i 0)))
    (fun i => decide (i ≠ n.node_id ∧ N ≤ n.match_index.getD i 0))
    (fun i hi => by simp [hi])
    (by simp [hN])
    (by simp)
    (List.range n.num_nodes)
  rw [hsplit, count_range_self n.node_id n.num_nodes hid]
  omega

/-- commitOkAt coincides with the claim-side majority-and-term
condition on indices within the log. -/
theorem commitOkAt_iff (n : Node) (N : Nat)
    (hid : n.node_id < n.num_nodes) (hN : N ≤ raft_log_last_index n.log) :
    commitOkAt n N ↔
      (majorityAt n N ∧ raft_log_term_at n.log N = n.current_term) := by
  unfold commitOkAt majorityAt
  rw [matchCount_eq_claim_count n N hid hN]

/-- Indices strictly between base_index and last_index are present. -/
theorem raft_log_get_isSome (log : Log) (i : Nat)
    (h1 : log.base_index < i) (h2 : i ≤ raft_log_last_index log) :
    ∃ e, raft_log_get log i = some e := by
  unfold raft_log_get
  rw [if_neg (by omega : ¬ i = 0), if_neg (by omega : ¬ i ≤ log.base_index)]
  unfold raft_log_last_index at h2
  cases hget : log.entries.get? (i - log.base_index - 1) with
  | some e => exact ⟨e, rfl⟩
  | none =>
    rw [List.get?_eq_none] at hget
    omega

end Raft

namespace Raft

/-- raft_apply_committed with an apply callback: last_applied catches
up to commit_index and the present entries in between are applied in
increasing index order. -/
theorem raft_apply_committed_spec (m : Node) (h : m.has_apply_fn = true) :
    (raft_apply_committed m).1 =
      { m with last_applied := m.last_applied + (m.commit_index - m.last_applied) } ∧
    (raft_apply_committed m).2 =
      (List.range' (m.last_applied + 1) (m.commit_index - m.last_applied)).filterMap
        (fun i => (raft_log_get m.log i).map Event.applyEntry) := by
  unfold raft_apply_committed
  rw [if_pos h]
  exact applyLoop_spec (m.commit_index - m.last_applied) m

end Raft

open Raft in
/-- C1: on a leader, raft_advance_commit_index returns OK and advances
commit_index to the greatest index N with commit_index < N <=
last_index() such that a strict majority of the num_nodes members (the
leader counting its own last_index() for itself) has match_index >= N
and term_at(N) equals the current term; commit_index is unchanged when
no such N exists; the event trace is exactly the apply calls for the
newly committed entries in strictly increasing index order, each newly
committed entry being present and applied, and last_applied ends equal
to the new commit_index. -/
theorem C1_advance_commit_greatest (n : Node)
    (hrole : n.role = Role.leader)
    (hid : n.node_id < n.num_nodes)
    (hla : n.last_applied = n.commit_index)
    (hbase : n.log.base_index ≤ n.commit_index)
    (happly : n.has_apply_fn = true) :
    (raft_advance_commit_index n).2.2 = Status.ok ∧
    ((raft_advance_commit_index n).1.commit_index = n.commit_index ∧
       (∀ N, n.commit_index < N → N ≤ raft_log_last_index n.log →
         ¬ (majorityAt n N ∧ raft_log_term_at n.log N = n.current_term)) ∨
     (n.commit_index < (raft_advance_commit_index n).1.commit_index ∧
      (raft_advance_commit_index n).1.commit_index ≤ raft_log_last_index n.log ∧
      majorityAt n (raft_advance_commit_index n).1.commit_index ∧
      raft_log_term_at n.log (raft_advance_commit_index n).1.commit_index = n.current_term ∧
      ∀ N, n.commit_index < N → N ≤ raft_log_last_index n.log →
        majorityAt n N → raft_log_term_at n.log N = n.current_term →
        N ≤ (raft_advance_commit_index n).1.commit_index)) ∧
    (raft_advance_commit_index n).2.1 =
      (List.range' (n.commit_index + 1)
        ((raft_advance_commit_index n).1.commit_index - n.commit_index)).filterMap
        (fun i => (raft_log_get n.log i).map Event.applyEntry) ∧
    (∀ i, n.commit_index < i → i ≤ (raft_advance_commit_index n).1.commit_index →
       ∃ e, raft_log_get n.log i = some e ∧
            Event.applyEntry e ∈ (raft_advance_commit_index n).2.1) ∧
    (raft_advance_commit_index n).1.last_applied =
      (raft_advance_commit_index n).1.commit_index := by
  unfold raft_advance_commit_index
  rw [if_neg (show ¬ n.role ≠ Role.leader by rw [hrole]; simp)]
  dsimp only
  have hchar :
      (((List.range' (n.commit_index + 1)
           (raft_log_last_index n.log - n.commit_index)).foldl
           (fun acc N => if commitOkAt n N then N else acc) n.commit_index =
         n.commit_index ∧
        ∀ N, n.commit_index + 1 ≤ N →
          N < n.commit_index + 1 + (raft_log_last_index n.log - n.commit_index) →
          ¬ commitOkAt n N) ∨
       (commitOkAt n ((List.range' (n.commit_index + 1)
           (raft_log_last_index n.log - n.commit_index)).foldl
           (fun acc N => if commitOkAt n N then N else acc) n.commit_index) ∧
        n.commit_index + 1 ≤ (List.range' (n.commit_index + 1)
           (raft_log_last_index n.log - n.commit_index)).foldl
           (fun acc N => if commitOkAt n N then N else acc) n.commit_index ∧
        (List.range' (n.commit_index + 1)
           (raft_log_last_index n.log - n.commit_index)).foldl
           (fun acc N => if commitOkAt n N then N else acc) n.commit_index <
          n.commit_index + 1 + (raft_log_last_index n.log - n.commit_index) ∧
        ∀ N, n.commit_index + 1 ≤ N →
          N < n.commit_index + 1 + (raft_log_last_index n.log - n.commit_index) →
          commitOkAt n N →
          N ≤ (List.range' (n.commit_index + 1)
            (raft_log_last_index n.log - n.commit_index)).foldl
            (fun acc N => if commitOkAt n N then N else acc) n.commit_index)) :=
    range'_foldl_greatest (commitOkAt n)
      (raft_log_last_index n.log - n.commit_index) (n.commit_index + 1) n.commit_index
  set F := (List.range' (n.commit_index + 1)
      (raft_log_last_index n.log - n.commit_index)).foldl
      (fun acc N => if commitOkAt n N then N else acc) n.commit_index with hF
  rcases hchar with ⟨hr, hnone⟩ | ⟨hP, hlo, hhi, hmax⟩
  · rw [hr, if_neg (Nat.lt_irrefl n.commit_index)]
    refine ⟨rfl, Or.inl ⟨rfl, ?_⟩, by simp, ?_, hla⟩
    · intro N hN1 hN2 hcond
      have hok : commitOkAt n N := (commitOkAt_iff n N hid hN2).mpr hcond
      exact hnone N (by omega) (by omega) hok
    · intro i hi1 hi2
      have hi2' : i ≤ n.commit_index := hi2
      omega
  · have hFlast : F ≤ raft_log_last_index n.log := by omega
    have hlt : n.commit_index < F := by omega
    rw [if_pos hlt]
    dsimp only
    obtain ⟨hndA, hevA⟩ := raft_apply_committed_spec
      { n with commit_index := F } happly
    have hnd2 : (raft_apply_committed { n with commit_index := F }).1.commit_index = F := by
      rw [hndA]
    have hnd3 : (raft_apply_committed { n with commit_index := F }).1.last_applied = F := by
      rw [hndA]
      show n.last_applied + (F - n.last_applied) = F
      omega
    have hev2 : (raft_apply_committed { n with commit_index := F }).2 =
        (List.range' (n.commit_index + 1) (F - n.commit_index)).filterMap
          (fun i => (raft_log_get n.log i).map Event.applyEntry) := by
      rw [hevA]
      rw [show ({ n with commit_index := F } : Node).last_applied = n.commit_index from hla]
    refine ⟨rfl, Or.inr ⟨?_, ?_, ?_, ?_, ?_⟩, ?_, ?_, ?_⟩
    · rw [hnd2]; exact hlt
    · rw [hnd2]; exact hFlast
    · rw [hnd2]; exact ((commitOkAt_iff n F hid hFlast).mp hP).1
    · rw [hnd2]; exact ((commitOkAt_iff n F hid hFlast).mp hP).2
    · intro N h1 h2 hmaj hterm
      rw [hnd2]
      exact hmax N (by omega) (by omega) ((commitOkAt_iff n N hid h2).mpr ⟨hmaj, hterm⟩)
    · rw [hnd2, hev2]
    · intro i h1 h2
      rw [hnd2] at h2
      obtain ⟨e, hget⟩ := raft_log_get_isSome n.log i (by omega) (by omega)
      refine ⟨e, hget, ?_⟩
      rw [hev2]
      exact List.mem_filterMap.mpr ⟨i, List.mem_range'_1.mpr ⟨by omega, by omega⟩,
        by rw [hget]; rfl⟩
    · rw [hnd2, hnd3]

open Raft in
/-- Witness for C1 at a concrete input: the leader advLeader (peer 1
has match_index 2, both entries are from the current term) advances
commit_index from 0 to 2 and applies entries 1 and 2 in order. -/
theorem C1_advance_commit_greatest_witness :
    (raft_advance_commit_index advLeader).2.2 = Status.ok ∧
    (raft_advance_commit_index advLeader).1.commit_index = 2 ∧
    (raft_advance_commit_index advLeader).1.last_applied = 2 ∧
    (raft_advance_commit_index advLeader).2.1 =
      [Event.applyEntry ⟨1, 1, 0, [120]⟩, Event.applyEntry ⟨1, 2, 0, [121]⟩] := by
  have h := C1_advance_commit_greatest advLeader rfl (by decide) rfl (by decide) rfl
  exact ⟨h.1, by decide, by decide, by decide⟩

namespace Raft

/-- Shift distributes over xor. -/
theorem shiftRight_xor (a b k : Nat) : (a ^^^ b) >>> k = (a >>> k) ^^^ (b >>> k) := by
  apply Nat.eq_of_testBit_eq
  intro i
  simp [Nat.testBit_shiftRight, Nat.testBit_xor]

/-- Four-way xor regrouping. -/
theorem xor_mix (p q r s : Nat) : (p ^^^ q) ^^^ (r ^^^ s) = (p ^^^ r) ^^^ (q ^^^ s) := by
  apply Nat.eq_of_testBit_eq
  intro i
  simp only [Nat.testBit_xor]
  cases p.testBit i <;> cases q.testBit i <;> cases r.testBit i <;> cases s.testBit i <;> rfl

/-- Rotate the poly term through an xor. -/
theorem xor_rot (x y p : Nat) : (x ^^^ y) ^^^ p = (x ^^^ p) ^^^ y := by
  apply Nat.eq_of_testBit_eq
  intro i
  simp only [Nat.testBit_xor]
  cases x.testBit i <;> cases y.testBit i <;> cases p.testBit i <;> rfl

/-- Left cancellation for xor. -/
theorem xor_cancel_left {a b c : Nat} (h : a ^^^ b = a ^^^ c) : b = c := by
  have hb : b = a ^^^ (a ^^^ b) := by
    rw [← Nat.xor_assoc, Nat.xor_self, Nat.zero_xor]
  rw [hb, h, ← Nat.xor_assoc, Nat.xor_self, Nat.zero_xor]

/-- A nonzero xor difference separates values. -/
theorem xor_ne_of_ne_zero {x d : Nat} (hd : d ≠ 0) : x ^^^ d ≠ x := by
  intro h
  apply hd
  have : x ^^^ d = x ^^^ 0 := by rw [Nat.xor_zero]; exact h
  exact xor_cancel_left this

/-- Parity of an xor. -/
theorem xor_mod_two (a b : Nat) : (a ^^^ b) % 2 = (a % 2) ^^^ (b % 2) := by
  have h1 : ∀ x : Nat, x % 2 = x &&& 1 := fun x =>
    (Nat.and_pow_two_sub_one_eq_mod x 1).symm
  rw [h1, h1, h1, Nat.and_xor_distrib_right]

/-- crcStep is linear over xor. -/
theorem crcStep_xor (a b : Nat) : crcStep (a ^^^ b) = crcStep a ^^^ crcStep b := by
  unfold crcStep
  have hpar := xor_mod_two a b
  have ha := Nat.mod_two_eq_zero_or_one a
  have hb := Nat.mod_two_eq_zero_or_one b
  rcases ha with ha | ha <;> rcases hb with hb | hb
  · rw [ha, hb] at hpar
    rw [show (0 : Nat) ^^^ 0 = 0 from rfl] at hpar
    rw [if_neg (by omega), if_neg (by omega), if_neg (by omega), shiftRight_xor]
  · rw [ha, hb] at hpar
    rw [show (0 : Nat) ^^^ 1 = 1 from rfl] at hpar
    rw [if_pos (by omega), if_neg (by omega), if_pos (by omega), shiftRight_xor]
    rw [Nat.xor_assoc]
  · rw [ha, hb] at hpar
    rw [show (1 : Nat) ^^^ 0 = 1 from rfl] at hpar
    rw [if_pos (by omega), if_pos (by omega), if_neg (by omega), shiftRight_xor]
    rw [xor_rot]
  · rw [ha, hb] at hpar
    rw [show (1 : Nat) ^^^ 1 = 0 from rfl] at hpar
    rw [if_neg (by omega), if_pos (by omega), if_pos (by omega), shiftRight_xor]
    rw [xor_mix, Nat.xor_self, Nat.xor_zero]

/-- crcStep stays below 2^32. -/
theorem crcStep_lt (a : Nat) (h : a < 4294967296) : crcStep a < 4294967296 := by
  unfold crcStep
  have hpow : (2 : Nat) ^ 32 = 4294967296 := by norm_num
  have h1 : a >>> 1 < 2 ^ 32 := by
    rw [Nat.shiftRight_one]
    omega
  have hp : CRC_POLY < 2 ^ 32 := by rw [hpow]; decide
  split_ifs
  · have hx := Nat.xor_lt_two_pow h1 hp
    omega
  · omega

/-- crcStep sends nonzero 32-bit values to nonzero values. -/
theorem crcStep_ne_zero (a : Nat) (hlt : a < 4294967296) (hne : a ≠ 0) :
    crcStep a ≠ 0 := by
  unfold crcStep
  have ha := Nat.mod_two_eq_zero_or_one a
  rcases ha with ha | ha
  · rw [if_neg (by omega)]
    rw [Nat.shiftRight_one]
    omega
  · rw [if_pos (by omega)]
    intro hzero
    have : a >>> 1 = CRC_POLY := Nat.xor_eq_zero.mp hzero
    rw [Nat.shiftRight_one] at this
    unfold CRC_POLY at this
    omega

/-- Iterated crcStep: linearity, bound and nonzero preservation. -/
theorem crcStep_iterate_xor (k a b : Nat) :
    crcStep^[k] (a ^^^ b) = crcStep^[k] a ^^^ crcStep^[k] b := by
  induction k generalizing a b with
  | zero => rfl
  | succ k ih =>
    rw [Function.iterate_succ_apply, Function.iterate_succ_apply,
        Function.iterate_succ_apply, crcStep_xor]
    exact ih (crcStep a) (crcStep b)

theorem crcStep_iterate_lt (k a : Nat) (h : a < 4294967296) :
    crcStep^[k] a < 4294967296 := by
  induction k generalizing a with
  | zero => exact h
  | succ k ih =>
    rw [Function.iterate_succ_apply]
    exact ih (crcStep a) (crcStep_lt a h)

theorem crcStep_iterate_ne_zero (k a : Nat) (hlt : a < 4294967296) (hne : a ≠ 0) :
    crcStep^[k] a ≠ 0 := by
  induction k generalizing a with
  | zero => exact hne
  | succ k ih =>
    rw [Function.iterate_succ_apply]
    exact ih (crcStep a) (crcStep_lt a hlt) (crcStep_ne_zero a hlt hne)

/-- The CRC table is linear over xor. -/
theorem crc32_table_xor (a b : Nat) :
    crc32_table (a ^^^ b) = crc32_table a ^^^ crc32_table b :=
  crcStep_iterate_xor 8 a b

/-- Any value splits into its low byte and shifted high part. -/
theorem split_low_byte (d : Nat) : d = (d &&& 255) ^^^ ((d >>> 8) <<< 8) := by
  apply Nat.eq_of_testBit_eq
  intro i
  simp only [Nat.testBit_xor, Nat.testBit_and, Nat.testBit_shiftLeft,
             Nat.testBit_shiftRight]
  have h255 : (255 : Nat) = 2 ^ 8 - 1 := by norm_num
  rw [h255, Nat.testBit_two_pow_sub_one]
  by_cases hi : i < 8
  · simp [hi, Nat.not_le.mpr hi]
  · have hle : 8 ≤ i := Nat.not_lt.mp hi
    simp [hi, hle, Nat.add_sub_cancel' hle]

/-- Eight crcStep iterations drain an 8-bit shift. -/
theorem crcStep_iterate_shift : ∀ (k m : Nat), crcStep^[k] (m <<< k) = m := by
  intro k
  induction k with
  | zero => intro m; simp
  | succ k ih =>
    intro m
    rw [Function.iterate_succ_apply]
    have heven : (m <<< (k + 1)) % 2 = 0 := by
      rw [Nat.shiftLeft_eq, pow_succ, ← Nat.mul_assoc, Nat.mul_mod_left]
    have hstep : crcStep (m <<< (k + 1)) = m <<< k := by
      unfold crcStep
      rw [if_neg (by omega), Nat.shiftRight_one, Nat.shiftLeft_eq, Nat.shiftLeft_eq,
          pow_succ, ← Nat.mul_assoc]
      omega
    rw [hstep, ih]

/-- The per-byte crc difference operator. -/
theorem diffStep_eq_iterate (d : Nat) :
    crc32_table (d &&& 255) ^^^ (d >>> 8) = crcStep^[8] d := by
  conv_rhs => rw [split_low_byte d]
  rw [crcStep_iterate_xor]
  rw [show crcStep^[8] ((d >>> 8) <<< 8) = d >>> 8 from crcStep_iterate_shift 8 (d >>> 8)]
  rfl

/-- Injecting an xor difference into the crc accumulator advances it by
the (nonzero-preserving) diff operator. -/
theorem crc32_fold_xor (c d b : Nat) :
    crc32_fold (c ^^^ d) b = crc32_fold c b ^^^ crcStep^[8] d := by
  unfold crc32_fold
  rw [← diffStep_eq_iterate d]
  rw [show (c ^^^ d) ^^^ b = (c ^^^ b) ^^^ d from by rw [xor_rot]]
  rw [Nat.and_xor_distrib_right, crc32_table_xor, shiftRight_xor, xor_mix]

/-- A nonzero 32-bit difference survives folding any byte list. -/
theorem crc32_foldl_diff : ∀ (l : List Nat) (c d : Nat),
    d ≠ 0 → d < 4294967296 →
    ∃ d', List.foldl crc32_fold (c ^^^ d) l = List.foldl crc32_fold c l ^^^ d' ∧
      d' ≠ 0 ∧ d' < 4294967296 := by
  intro l
  induction l with
  | nil => exact fun c d hd hlt => ⟨d, rfl, hd, hlt⟩
  | cons b rest ih =>
    intro c d hd hlt
    rw [List.foldl_cons, List.foldl_cons, crc32_fold_xor]
    exact ih (crc32_fold c b) (crcStep^[8] d)
      (crcStep_iterate_ne_zero 8 d hlt hd) (crcStep_iterate_lt 8 d hlt)

/-- Folding two different bytes from the same accumulator differs by
the table image of their xor. -/
theorem crc32_fold_byte_diff (c b1 b2 : Nat) (h1 : b1 < 256) (h2 : b2 < 256) :
    crc32_fold c b2 = crc32_fold c b1 ^^^ crc32_table (b1 ^^^ b2) := by
  unfold crc32_fold
  have hb : c ^^^ b2 = (c ^^^ b1) ^^^ (b1 ^^^ b2) := by
    rw [← Nat.xor_assoc]
    rw [show c ^^^ b1 ^^^ b1 = c from by rw [Nat.xor_assoc, Nat.xor_self, Nat.xor_zero]]
  rw [hb, Nat.and_xor_distrib_right, crc32_table_xor]
  have h256 : (2 : Nat) ^ 8 = 256 := by norm_num
  have hxlt : b1 ^^^ b2 < 2 ^ 8 := Nat.xor_lt_two_pow (by omega) (by omega)
  have hsmall : (b1 ^^^ b2) &&& 255 = b1 ^^^ b2 := by
    rw [show (255 : Nat) = 2 ^ 8 - 1 from by norm_num, Nat.and_pow_two_sub_one_eq_mod]
    exact Nat.mod_eq_of_lt hxlt
  rw [hsmall, xor_rot]

/-- CRC32 differs on byte lists that differ in exactly one byte. -/
theorem crc32_single_byte_change (pre suf : List Nat) (b1 b2 : Nat)
    (h1 : b1 < 256) (h2 : b2 < 256) (hne : b1 ≠ b2) :
    crc32 (pre ++ b1 :: suf) ≠ crc32 (pre ++ b2 :: suf) := by
  unfold crc32 crc32_update
  rw [List.foldl_append, List.foldl_append, List.foldl_cons, List.foldl_cons]
  intro heq
  have hcancel : List.foldl crc32_fold
      (crc32_fold (List.foldl crc32_fold (0 ^^^ 4294967295) pre) b1) suf =
    List.foldl crc32_fold
      (crc32_fold (List.foldl crc32_fold (0 ^^^ 4294967295) pre) b2) suf := by
    rw [Nat.xor_comm (List.foldl crc32_fold
          (crc32_fold (List.foldl crc32_fold (0 ^^^ 4294967295) pre) b1) suf) 4294967295,
        Nat.xor_comm (List.foldl crc32_fold
          (crc32_fold (List.foldl crc32_fold (0 ^^^ 4294967295) pre) b2) suf) 4294967295]
      at heq
    exact xor_cancel_left heq
  have hd0 : b1 ^^^ b2 ≠ 0 := fun h => hne (Nat.xor_eq_zero.mp h)
  have h256 : (2 : Nat) ^ 8 = 256 := by norm_num
  have hxlt : b1 ^^^ b2 < 2 ^ 8 := Nat.xor_lt_two_pow (by omega) (by omega)
  have hdlt : b1 ^^^ b2 < 4294967296 := by omega
  have htne : crc32_table (b1 ^^^ b2) ≠ 0 :=
    crcStep_iterate_ne_zero 8 (b1 ^^^ b2) hdlt hd0
  have htlt : crc32_table (b1 ^^^ b2) < 4294967296 :=
    crcStep_iterate_lt 8 (b1 ^^^ b2) hdlt
  rw [crc32_fold_byte_diff (List.foldl crc32_fold (0 ^^^ 4294967295) pre) b1 b2 h1 h2]
    at hcancel
  obtain ⟨d', hfold, hd'ne, -⟩ := crc32_foldl_diff suf
    (crc32_fold (List.foldl crc32_fold (0 ^^^ 4294967295) pre) b1)
    (crc32_table (b1 ^^^ b2)) htne htlt
  rw [hfold] at hcancel
  exact xor_ne_of_ne_zero hd'ne hcancel.symm

/-- natToBytesLE always yields w bytes. -/
theorem length_natToBytesLE : ∀ (w v : Nat), (natToBytesLE w v).length = w := by
  intro w
  induction w with
  | zero => intro v; rfl
  | succ k ih => intro v; simp [natToBytesLE, ih]

/-- Every byte produced by natToBytesLE is below 256. -/
theorem natToBytesLE_lt : ∀ (w v : Nat), ∀ x ∈ natToBytesLE w v, x < 256 := by
  intro w
  induction w with
  | zero => intro v x hx; simp [natToBytesLE] at hx
  | succ k ih =>
    intro v x hx
    simp only [natToBytesLE, List.mem_cons] at hx
    rcases hx with hx | hx
    · omega
    · exact ih (v / 256) x hx

/-- Little-endian round trip for values fitting the width. -/
theorem bytesToNatLE_natToBytesLE : ∀ (w v : Nat), v < 2 ^ (8 * w) →
    bytesToNatLE (natToBytesLE w v) = v := by
  intro w
  induction w with
  | zero =>
    intro v hv
    simp only [natToBytesLE, bytesToNatLE]
    omega
  | succ k ih =>
    intro v hv
    have hsplit : 2 ^ (8 * (k + 1)) = 2 ^ (8 * k) * 256 := by
      rw [Nat.mul_succ, Nat.pow_add]
    have hdiv : v / 256 < 2 ^ (8 * k) := by
      rw [Nat.div_lt_iff_lt_mul (by norm_num : 0 < 256)]
      omega
    simp only [natToBytesLE, bytesToNatLE]
    rw [ih (v / 256) hdiv]
    omega

/-- The crc accumulator stays a 32-bit value. -/
theorem crc32_foldl_lt : ∀ (l : List Nat) (c : Nat), c < 4294967296 →
    List.foldl crc32_fold c l < 4294967296 := by
  intro l
  induction l with
  | nil => exact fun c h => h
  | cons b rest ih =>
    intro c hc
    rw [List.foldl_cons]
    apply ih
    unfold crc32_fold
    have hpow : (2 : Nat) ^ 32 = 4294967296 := by norm_num
    have htab : crc32_table ((c ^^^ b) &&& 255) < 2 ^ 32 := by
      have hargs : (c ^^^ b) &&& 255 < 4294967296 := by
        rw [show (255 : Nat) = 2 ^ 8 - 1 from by norm_num,
            Nat.and_pow_two_sub_one_eq_mod]
        have := Nat.mod_lt (c ^^^ b) (show 0 < 2 ^ 8 by norm_num)
        have h256 : (2 : Nat) ^ 8 = 256 := by norm_num
        omega
      have := crcStep_iterate_lt 8 ((c ^^^ b) &&& 255) hargs
      unfold crc32_table
      omega
    have hsh : c >>> 8 < 2 ^ 32 := by
      have : c >>> 8 = c / 2 ^ 8 := Nat.shiftRight_eq_div_pow c 8
      have hd : c / 2 ^ 8 ≤ c := Nat.div_le_self c (2 ^ 8)
      omega
    have := Nat.xor_lt_two_pow htab hsh
    omega

/-- crc32 itself is a 32-bit value. -/
theorem crc32_lt (l : List Nat) : crc32 l < 4294967296 := by
  unfold crc32 crc32_update
  have hpow : (2 : Nat) ^ 32 = 4294967296 := by norm_num
  have hin : (0 : Nat) ^^^ 4294967295 < 4294967296 := by decide
  have hfold := crc32_foldl_lt l (0 ^^^ 4294967295) hin
  have := Nat.xor_lt_two_pow (show List.foldl crc32_fold (0 ^^^ 4294967295) l < 2 ^ 32 by omega)
    (show (4294967295 : Nat) < 2 ^ 32 by omega)
  omega

/-- getD on the right part of an append. -/
theorem getD_append_right_own : ∀ (l1 l2 : List Nat) (p : Nat), l1.length ≤ p →
    (l1 ++ l2).getD p 0 = l2.getD (p - l1.length) 0 := by
  intro l1
  induction l1 with
  | nil => intro l2 p h; simp
  | cons a l ih =>
    intro l2 p h
    cases p with
    | zero => simp at h
    | succ q =>
      simp only [List.cons_append, List.length_cons]
      rw [List.getD_cons_succ, ih l2 q (by simpa using h)]
      congr 1
      omega

/-- getD on the left part of an append. -/
theorem getD_append_left_own : ∀ (l1 l2 : List Nat) (p : Nat), p < l1.length →
    (l1 ++ l2).getD p 0 = l1.getD p 0 := by
  intro l1
  induction l1 with
  | nil => intro l2 p h; simp at h
  | cons a l ih =>
    intro l2 p h
    cases p with
    | zero => rfl
    | succ q =>
      simp only [List.cons_append]
      rw [List.getD_cons_succ, List.getD_cons_succ, ih l2 q (by simpa using h)]

/-- set on the right part of an append. -/
theorem set_append_right_own : ∀ (l1 l2 : List Nat) (p b : Nat), l1.length ≤ p →
    (l1 ++ l2).set p b = l1 ++ l2.set (p - l1.length) b := by
  intro l1
  induction l1 with
  | nil => intro l2 p b h; simp
  | cons a l ih =>
    intro l2 p b h
    cases p with
    | zero => simp at h
    | succ q =>
      simp only [List.cons_append, List.length_cons, List.set_cons_succ]
      rw [ih l2 q b (by simpa using h)]
      have hlc : q + 1 - (l.length + 1) = q - l.length := by omega
      rw [hlc]

/-- set on the left part of an append. -/
theorem set_append_left_own : ∀ (l1 l2 : List Nat) (p b : Nat), p < l1.length →
    (l1 ++ l2).set p b = l1.set p b ++ l2 := by
  intro l1
  induction l1 with
  | nil => intro l2 p b h; simp at h
  | cons a l ih =>
    intro l2 p b h
    cases p with
    | zero => rfl
    | succ q =>
      simp only [List.cons_append, List.set_cons_succ]
      rw [ih l2 q b (by simpa using h)]

/-- How raft_storage_load_state parses a well-shaped 28-byte image. -/
theorem load_state_parses (m4 v4 c4 r p4 : List Nat)
    (hm : m4.length = 4) (hv : v4.length = 4) (hc : c4.length = 4)
    (hr : r.length = 12) (hp : p4.length = 4) :
    raft_storage_load_state (m4 ++ (v4 ++ (c4 ++ (r ++ p4)))) =
      (if bytesToNatLE m4 ≠ RAFT_STATE_MAGIC then (Status.corruption, none)
       else if bytesToNatLE v4 ≠ RAFT_STORAGE_VERSION then (Status.corruption, none)
       else if bytesToNatLE c4 ≠ crc32 r then (Status.corruption, none)
       else (Status.ok, some (bytesToNatLE (r.take 8),
                              int32OfBits (bytesToNatLE (r.drop 8))))) := by
  unfold raft_storage_load_state
  have hlen : (m4 ++ (v4 ++ (c4 ++ (r ++ p4)))).length = 28 := by
    simp [hm, hv, hc, hr, hp]
  rw [if_neg (by omega)]
  have htake4 : (m4 ++ (v4 ++ (c4 ++ (r ++ p4)))).take 4 = m4 := List.take_left' hm
  have hdrop4 : (m4 ++ (v4 ++ (c4 ++ (r ++ p4)))).drop 4 = v4 ++ (c4 ++ (r ++ p4)) :=
    List.drop_left' hm
  have h44 : ((m4 ++ (v4 ++ (c4 ++ (r ++ p4)))).drop 4).drop 4 =
      (m4 ++ (v4 ++ (c4 ++ (r ++ p4)))).drop 8 := by
    rw [List.drop_drop]
  have hdrop8 : (m4 ++ (v4 ++ (c4 ++ (r ++ p4)))).drop 8 = c4 ++ (r ++ p4) := by
    rw [← h44, hdrop4]
    exact List.drop_left' hv
  have h84 : ((m4 ++ (v4 ++ (c4 ++ (r ++ p4)))).drop 8).drop 4 =
      (m4 ++ (v4 ++ (c4 ++ (r ++ p4)))).drop 12 := by
    rw [List.drop_drop]
  have hdrop12 : (m4 ++ (v4 ++ (c4 ++ (r ++ p4)))).drop 12 = r ++ p4 := by
    rw [← h84, hdrop8]
    exact List.drop_left' hc
  rw [htake4, hdrop4, hdrop8, hdrop12]
  rw [List.take_left' hv, List.take_left' hc, List.take_left' hr]

/-- The CRC region has 12 bytes, all below 256. -/
theorem stateCrcRegion_length (t : Nat) (v : Int) :
    (stateCrcRegion t v).length = 12 := by
  simp [stateCrcRegion, length_natToBytesLE]

theorem stateCrcRegion_bytes_lt (t : Nat) (v : Int) :
    ∀ x ∈ stateCrcRegion t v, x < 256 := by
  intro x hx
  unfold stateCrcRegion at hx
  rcases List.mem_append.mp hx with hx | hx
  · exact natToBytesLE_lt 8 t x hx
  · exact natToBytesLE_lt 4 (int32Bits v) x hx

/-- The int32 voted_for field round-trips through its bit pattern. -/
theorem int32OfBits_int32Bits (v : Int) (h1 : -2147483648 ≤ v)
    (h2 : v < 2147483648) : int32OfBits (int32Bits v) = v := by
  unfold int32OfBits int32Bits
  have hm1 := Int.emod_nonneg v (show (4294967296 : Int) ≠ 0 by norm_num)
  have hm2 := Int.emod_lt_of_pos v (show (0 : Int) < 4294967296 by norm_num)
  split_ifs with hsplit <;> omega

/-- The bit pattern of an int32 fits 32 bits. -/
theorem int32Bits_lt (v : Int) : int32Bits v < 4294967296 := by
  unfold int32Bits
  have hm1 := Int.emod_nonneg v (show (4294967296 : Int) ≠ 0 by norm_num)
  have hm2 := Int.emod_lt_of_pos v (show (0 : Int) < 4294967296 by norm_num)
  omega

/-- Reading back each field of a freshly saved state file. -/
theorem state_fields_roundtrip (t : Nat) (v : Int)
    (ht : t < 18446744073709551616) :
    bytesToNatLE (natToBytesLE 4 RAFT_STATE_MAGIC) = RAFT_STATE_MAGIC ∧
    bytesToNatLE (natToBytesLE 4 RAFT_STORAGE_VERSION) = RAFT_STORAGE_VERSION ∧
    bytesToNatLE (natToBytesLE 4 (crc32 (stateCrcRegion t v))) =
      crc32 (stateCrcRegion t v) ∧
    bytesToNatLE (natToBytesLE 8 t) = t ∧
    bytesToNatLE (natToBytesLE 4 (int32Bits v)) = int32Bits v := by
  have h32 : (2 : Nat) ^ (8 * 4) = 4294967296 := by norm_num
  have h64 : (2 : Nat) ^ (8 * 8) = 18446744073709551616 := by norm_num
  refine ⟨by decide, by decide, ?_, ?_, ?_⟩
  · exact bytesToNatLE_natToBytesLE 4 _ (by
      have := crc32_lt (stateCrcRegion t v)
      omega)
  · exact bytesToNatLE_natToBytesLE 8 t (by omega)
  · exact bytesToNatLE_natToBytesLE 4 _ (by
      have := int32Bits_lt v
      omega)

/-- Loading the file written by save_state yields OK with exactly the
saved pair. -/
theorem load_after_save (t : Nat) (v : Int)
    (ht : t < 18446744073709551616) (hv1 : -2147483648 ≤ v)
    (hv2 : v < 2147483648) :
    raft_storage_load_state (raft_storage_save_state t v).1 =
      (Status.ok, some (t, v)) := by
  obtain ⟨hm, hver, hcrc, ht8, hv4⟩ := state_fields_roundtrip t v ht
  show raft_storage_load_state
      (natToBytesLE 4 RAFT_STATE_MAGIC ++
       (natToBytesLE 4 RAFT_STORAGE_VERSION ++
        (natToBytesLE 4 (crc32 (stateCrcRegion t v)) ++
         (stateCrcRegion t v ++ natToBytesLE 4 0)))) = _
  rw [load_state_parses _ _ _ _ _ (length_natToBytesLE 4 _) (length_natToBytesLE 4 _)
      (length_natToBytesLE 4 _) (stateCrcRegion_length t v) (length_natToBytesLE 4 _)]
  rw [hm, hver, hcrc]
  rw [if_neg (fun h => h rfl), if_neg (fun h => h rfl), if_neg (fun h => h rfl)]
  have htake : (stateCrcRegion t v).take 8 = natToBytesLE 8 t :=
    List.take_left' (length_natToBytesLE 8 t)
  have hdrop : (stateCrcRegion t v).drop 8 = natToBytesLE 4 (int32Bits v) :=
    List.drop_left' (length_natToBytesLE 8 t)
  rw [htake, hdrop, ht8, hv4, int32OfBits_int32Bits v hv1 hv2]

/-- The file byte at a CRC-region offset is the corresponding region
byte. -/
theorem state_file_getD_region (t : Nat) (v : Int) (p : Nat)
    (hp1 : 12 ≤ p) (hp2 : p < 24) :
    (state_file_bytes t v).getD p 0 = (stateCrcRegion t v).getD (p - 12) 0 := by
  show (natToBytesLE 4 RAFT_STATE_MAGIC ++
        (natToBytesLE 4 RAFT_STORAGE_VERSION ++
         (natToBytesLE 4 (crc32 (stateCrcRegion t v)) ++
          (stateCrcRegion t v ++ natToBytesLE 4 0)))).getD p 0 = _
  rw [getD_append_right_own _ _ p (by rw [length_natToBytesLE]; omega),
      length_natToBytesLE]
  rw [getD_append_right_own _ _ (p - 4) (by rw [length_natToBytesLE]; omega),
      length_natToBytesLE]
  rw [getD_append_right_own _ _ (p - 4 - 4) (by rw [length_natToBytesLE]; omega),
      length_natToBytesLE]
  rw [getD_append_left_own _ _ (p - 4 - 4 - 4)
      (by rw [stateCrcRegion_length]; omega)]
  rw [show p - 4 - 4 - 4 = p - 12 from by omega]

/-- Mutating one byte in the CRC region moves the set inside the
region. -/
theorem state_file_set_region (t : Nat) (v : Int) (p b : Nat)
    (hp1 : 12 ≤ p) (hp2 : p < 24) :
    (state_file_bytes t v).set p b =
      natToBytesLE 4 RAFT_STATE_MAGIC ++
      (natToBytesLE 4 RAFT_STORAGE_VERSION ++
       (natToBytesLE 4 (crc32 (stateCrcRegion t v)) ++
        (((stateCrcRegion t v).set (p - 12) b) ++ natToBytesLE 4 0))) := by
  show (natToBytesLE 4 RAFT_STATE_MAGIC ++
        (natToBytesLE 4 RAFT_STORAGE_VERSION ++
         (natToBytesLE 4 (crc32 (stateCrcRegion t v)) ++
          (stateCrcRegion t v ++ natToBytesLE 4 0)))).set p b = _
  rw [set_append_right_own _ _ p b (by rw [length_natToBytesLE]; omega),
      length_natToBytesLE]
  rw [set_append_right_own _ _ (p - 4) b (by rw [length_natToBytesLE]; omega),
      length_natToBytesLE]
  rw [set_append_right_own _ _ (p - 4 - 4) b (by rw [length_natToBytesLE]; omega),
      length_natToBytesLE]
  rw [set_append_left_own _ _ (p - 4 - 4 - 4) b
      (by rw [stateCrcRegion_length]; omega)]
  have harith : p - 4 - 4 - 4 = p - 12 := by omega
  rw [harith]

/-- Mutating any single byte of the CRC region changes the region's
CRC. -/
theorem crc32_region_changes (t : Nat) (v : Int) (q b : Nat)
    (hq : q < 12) (hb : b < 256)
    (hne : b ≠ (stateCrcRegion t v).getD q 0) :
    crc32 ((stateCrcRegion t v).set q b) ≠ crc32 (stateCrcRegion t v) := by
  have hqlen : q < (stateCrcRegion t v).length := by
    rw [stateCrcRegion_length]; omega
  have hsetd : (stateCrcRegion t v).set q b =
      (stateCrcRegion t v).take q ++ b :: (stateCrcRegion t v).drop (q + 1) := by
    rw [List.set_eq_take_append_cons_drop, if_pos hqlen]
  have horig : stateCrcRegion t v =
      (stateCrcRegion t v).take q ++
        (stateCrcRegion t v).getD q 0 :: (stateCrcRegion t v).drop (q + 1) := by
    conv_lhs => rw [← List.take_append_drop q (stateCrcRegion t v)]
    rw [List.getD_eq_getElem _ 0 hqlen, ← List.drop_eq_getElem_cons hqlen]
  have hb1lt : (stateCrcRegion t v).getD q 0 < 256 := by
    apply stateCrcRegion_bytes_lt t v
    rw [List.getD_eq_getElem _ 0 hqlen]
    exact List.getElem_mem ..
  rw [hsetd]
  conv_rhs => rw [horig]
  exact (crc32_single_byte_change ((stateCrcRegion t v).take q)
    ((stateCrcRegion t v).drop (q + 1)) ((stateCrcRegion t v).getD q 0) b
    hb1lt hb (fun h => hne (h ▸ rfl))).symm

/-- Loading a saved state file with any single CRC-region byte mutated
reports CORRUPTION. -/
theorem load_after_mutation (t : Nat) (v : Int)
    (ht : t < 18446744073709551616) (p b : Nat)
    (hp1 : 12 ≤ p) (hp2 : p < 24) (hb : b < 256)
    (hne : b ≠ (raft_storage_save_state t v).1.getD p 0) :
    raft_storage_load_state (((raft_storage_save_state t v).1).set p b) =
      (Status.corruption, none) := by
  obtain ⟨hm, hver, hcrc, -, -⟩ := state_fields_roundtrip t v ht
  have hne' : b ≠ (stateCrcRegion t v).getD (p - 12) 0 := by
    rw [show (raft_storage_save_state t v).1.getD p 0 =
        (state_file_bytes t v).getD p 0 from rfl,
      state_file_getD_region t v p hp1 hp2] at hne
    exact hne
  show raft_storage_load_state ((state_file_bytes t v).set p b) = _
  rw [state_file_set_region t v p b hp1 hp2]
  rw [load_state_parses _ _ _ _ _ (length_natToBytesLE 4 _) (length_natToBytesLE 4 _)
      (length_natToBytesLE 4 _)
      (by rw [List.length_set, stateCrcRegion_length])
      (length_natToBytesLE 4 _)]
  rw [hm, hver, hcrc]
  rw [if_neg (fun h => h rfl), if_neg (fun h => h rfl)]
  rw [if_pos (crc32_region_changes t v (p - 12) b (by omega) hb hne').symm]

end Raft

open Raft in
/-- C7: persistence round-trip and corruption detection.  For every
64-bit term t and int32 vote v, save_state followed by load_state
returns OK with exactly (t, v); and flipping any single byte of the
state file's CRC-covered region (bytes 12..23, the current_term and
voted_for fields) makes load_state return CORRUPTION. -/
theorem C7_state_roundtrip_and_corruption (t : Nat) (v : Int)
    (ht : t < 18446744073709551616) (hv1 : -2147483648 ≤ v)
    (hv2 : v < 2147483648) :
    raft_storage_load_state (raft_storage_save_state t v).1 =
      (Status.ok, some (t, v)) ∧
    (∀ p b, 12 ≤ p → p < 24 → b < 256 →
      b ≠ (raft_storage_save_state t v).1.getD p 0 →
      raft_storage_load_state (((raft_storage_save_state t v).1).set p b) =
        (Status.corruption, none)) :=
  ⟨load_after_save t v ht hv1 hv2,
   fun p b hp1 hp2 hb hne => load_after_mutation t v ht p b hp1 hp2 hb hne⟩

open Raft in
/-- Witness for C7 at the concrete input of the repository's own test
(term 42, voted_for 3): the round trip returns OK with (42, 3), and
zeroing byte 12 (the low byte of the term) yields CORRUPTION. -/
theorem C7_state_roundtrip_and_corruption_witness :
    raft_storage_load_state (raft_storage_save_state 42 3).1 =
      (Status.ok, some (42, 3)) ∧
    raft_storage_load_state (((raft_storage_save_state 42 3).1).set 12 0) =
      (Status.corruption, none) := by
  have h := C7_state_roundtrip_and_corruption 42 3 (by norm_num) (by norm_num)
    (by norm_num)
  exact ⟨h.1, h.2 12 0 (by norm_num) (by norm_num) (by norm_num) (by decide)⟩
